import Mathlib

/-!
Verification of the pyi-cache serialization module (`pytype/pytd/serialize_ast.py`).

The development shallowly embeds the module's data model and operations:

* trees are immutable values; a class-reference node (`PType.classType`) carries a
  numeric identity `id` and a fully qualified dotted `name` (names are lists of
  characters, so that the string computations of the source are reproduced
  exactly);
* the mutable resolved-pointer slot of a class-reference node lives outside the
  tree, in a heap `Ptrs : Nat → Option ClassDecl` keyed by node identity.
  In-place pointer mutation is a heap update, node identity is `id`, and
  structural node replacement allocates a fresh identity from `Heap.next`;
* fallible operations return `Except LoadError`, with
  `LoadError.unrestorableDependency` standing for `UnrestorableDependencyError`
  and `LoadError.assertionError` for a fatal `AssertionError`.

The functions `maybeNewName`, `renameUnit` (RenameModuleVisitor), `StoreAst`,
`EnsureAstName`, `lookupClassReferences` (`_LookupClassReferences`),
`fillLocalReferences` (`_FillLocalReferences`) and `ProcessAst` are translated
from the source module.  The pytd node classes and the collaborator visitors
(`CollectDependencies`, `ClearClassPointers`, `LookupExternalTypes`,
`FillInLocalPointers`) live outside this module and are modelled from the
specification; their definitions say so in their doc comments.
-/

/-- Dotted names, as lists of characters (mirrors Python strings exactly). -/
abbrev Str := List Char

/-- Convenience injection of a string literal into `Str`. -/
def str (s : String) : Str := s.data

/-- Boolean prefix test on character lists (Python `name.startswith(p)`;
`name.partition(p)` yields an empty `before` exactly when `p` occurs at
position 0, i.e. when `p` is a prefix of `name`). -/
def isPre : Str → Str → Bool
  | [], _ => true
  | _ :: _, [] => false
  | a :: as, b :: bs => a = b && isPre as bs

/-- The text before the last dot of a dotted name (Python
`name.rpartition(".")[0]`); empty when the name contains no dot. -/
def moduleOf : Str → Str
  | [] => []
  | c :: rest => if rest.contains '.' then c :: moduleOf rest else []

/-- Embeds `RenameModuleVisitor._MaybeNewName`: if `name` is `old` followed by a dot
and a single further dot-free segment, replace the `old` part by `new`;
otherwise return `name` unchanged.  (`name.partition(old + ".")` produces an
empty `before` and a non-empty `match` exactly when `old + "."` is a prefix of
`name`; `after` is then the remainder past that prefix.) -/
def maybeNewName (old new name : Str) : Str :=
  if name = [] then name
  else if isPre (old ++ ['.']) name then
    let after := name.drop (old ++ ['.']).length
    if after.contains '.' then name else (new ++ ['.']) ++ after
  else name

/-- Modelled from the spec: the reference-capable pytd type nodes (the pytd
node classes are external to the verified module).  `classType` is the class
reference node: it carries a node identity `id` (its resolved pointer lives in
the heap under that identity) and a fully qualified `name`.  `namedType` is the
name-only lazy reference form, `anything` a leaf type with no name. -/
inductive PType where
  | classType (id : Nat) (name : Str)
  | namedType (name : Str)
  | anything
deriving DecidableEq

/-- Modelled from the spec: a type-parameter declaration (name plus the
name-bearing `scope` field rewritten by the renamer). -/
structure TypeParamD where
  name : Str
  scope : Str
deriving DecidableEq

/-- Modelled from the spec: a constant declaration. -/
structure ConstantD where
  name : Str
  type : PType
deriving DecidableEq

/-- Modelled from the spec: a type-alias declaration. -/
structure AliasD where
  name : Str
  type : PType
deriving DecidableEq

/-- Modelled from the spec: a function declaration (signature types
flattened into parameter types plus a return type). -/
structure FunctionD where
  name : Str
  paramTypes : List PType
  returnType : PType
deriving DecidableEq

/-- Modelled from the spec: a class declaration (name, parent types, member
constants).  Resolved class-reference pointers target values of this type. -/
structure ClassDecl where
  name : Str
  parents : List PType
  constants : List ConstantD
deriving DecidableEq

/-- Modelled from the spec: the declaration tree (`pytd.TypeDeclUnit`): a
dotted module `name` and ordered lists of declarations. -/
structure TypeDeclUnit where
  name : Str
  constants : List ConstantD
  typeParams : List TypeParamD
  classes : List ClassDecl
  functions : List FunctionD
  aliases : List AliasD
deriving DecidableEq

/-- The pointer heap: the mutable `cls` slot of every class-reference node,
keyed by node identity.  `none` is a cleared (null) pointer. -/
abbrev Ptrs := Nat → Option ClassDecl

/-- Update the pointer slot of identity `i`. -/
def setPtr (p : Ptrs) (i : Nat) (v : Option ClassDecl) : Ptrs :=
  fun j => if j = i then v else p j

/-- The allocation state: the next fresh node identity and the pointer heap. -/
structure Heap where
  next : Nat
  ptrs : Ptrs

/-- All type positions reachable in a declaration tree, in traversal order
(constant types, then class parents and class member constant types, then
function parameter and return types, then alias targets). -/
def typesOf (t : TypeDeclUnit) : List PType :=
  t.constants.map (fun c => c.type)
    ++ t.classes.flatMap (fun c => c.parents ++ c.constants.map (fun k => k.type))
    ++ t.functions.flatMap (fun f => f.paramTypes ++ [f.returnType])
    ++ t.aliases.map (fun a => a.type)

/-- Is this node a class-reference node? -/
def isClassT : PType → Bool
  | .classType _ _ => true
  | _ => false

/-- Embeds `FindClassTypesVisitor`: the class-reference nodes reachable in a tree, in
traversal order.  (The source sorts this list before storing it; the sort is a
permutation and no property below depends on the order, so the model keeps
traversal order.) -/
def findClassTypes (t : TypeDeclUnit) : List PType :=
  (typesOf t).filter isClassT

/-- Modelled from the spec: `visitors.CollectDependencies`, the dependency
collecting traversal.  It returns the module portion (text before the last
dot) of every reachable class-reference name, skipping names without a module
portion; per the `SerializableAst` docstring the result can therefore contain
the module being stored itself.  Duplicates are kept here; the caller
deduplicates (the collector's `modules` attribute is a set). -/
def collectDependencies (t : TypeDeclUnit) : List Str :=
  (typesOf t).filterMap fun n =>
    match n with
    | .classType _ nm => if moduleOf nm = [] then none else some (moduleOf nm)
    | _ => none

/-- Pointer-clearing step for one node: null the heap slot of a
class-reference node's identity. -/
def clearNode (p : Ptrs) (n : PType) : Ptrs :=
  match n with
  | .classType i _ => setPtr p i none
  | _ => p

/-- Modelled from the spec: `visitors.ClearClassPointers`, the in-place
pointer-clearing traversal — every reachable class-reference node's resolved
pointer is set to null in the heap (the tree value itself is unchanged). -/
def clearClassPointers (t : TypeDeclUnit) (p : Ptrs) : Ptrs :=
  (typesOf t).foldl clearNode p

/-- Embeds `RenameModuleVisitor.VisitClassType` and `VisitNamedType`: rewrite the name
of a type node.  A class-reference node whose name changes is rebuilt as a new
node (`pytd.ClassType(new_name, node.cls)`): it receives a fresh identity
whose heap slot is initialised with the old node's pointer value; an unchanged
node is returned as-is (same identity). -/
def renameType (old new : Str) (n : PType) (h : Heap) : PType × Heap :=
  match n with
  | .classType i nm =>
    let newName := maybeNewName old new nm
    if newName = nm then (.classType i nm, h)
    else (.classType h.next newName, ⟨h.next + 1, setPtr h.ptrs h.next (h.ptrs i)⟩)
  | .namedType nm => (.namedType (maybeNewName old new nm), h)
  | .anything => (.anything, h)

/-- Rename a list of type nodes, threading the heap. -/
def renameTypes (old new : Str) (l : List PType) (h : Heap) : List PType × Heap :=
  match l with
  | [] => ([], h)
  | n :: rest =>
    let (n1, h1) := renameType old new n h
    let (rest1, h2) := renameTypes old new rest h1
    (n1 :: rest1, h2)

/-- Embeds `RenameModuleVisitor.VisitConstant` (via `_ReplaceModuleName`) plus the
rename of the constant's type. -/
def renameConstant (old new : Str) (c : ConstantD) (h : Heap) : ConstantD × Heap :=
  let (t1, h1) := renameType old new c.type h
  ({ name := maybeNewName old new c.name, type := t1 }, h1)

/-- Rename a list of constants, threading the heap. -/
def renameConstants (old new : Str) (l : List ConstantD) (h : Heap) : List ConstantD × Heap :=
  match l with
  | [] => ([], h)
  | c :: rest =>
    let (c1, h1) := renameConstant old new c h
    let (rest1, h2) := renameConstants old new rest h1
    (c1 :: rest1, h2)

/-- Embeds `RenameModuleVisitor.VisitTypeParameter`: rewrite the `scope` field. -/
def renameTypeParam (old new : Str) (tp : TypeParamD) : TypeParamD :=
  { name := tp.name, scope := maybeNewName old new tp.scope }

/-- Embeds `RenameModuleVisitor.VisitAlias` (via `_ReplaceModuleName`) plus the
rename of the alias target type. -/
def renameAlias (old new : Str) (a : AliasD) (h : Heap) : AliasD × Heap :=
  let (t1, h1) := renameType old new a.type h
  ({ name := maybeNewName old new a.name, type := t1 }, h1)

/-- Rename a list of aliases, threading the heap. -/
def renameAliases (old new : Str) (l : List AliasD) (h : Heap) : List AliasD × Heap :=
  match l with
  | [] => ([], h)
  | a :: rest =>
    let (a1, h1) := renameAlias old new a h
    let (rest1, h2) := renameAliases old new rest h1
    (a1 :: rest1, h2)

/-- Embeds `RenameModuleVisitor.VisitFunction` (via `_ReplaceModuleName`) plus the
rename of the signature types. -/
def renameFunction (old new : Str) (f : FunctionD) (h : Heap) : FunctionD × Heap :=
  let (ps, h1) := renameTypes old new f.paramTypes h
  let (r1, h2) := renameType old new f.returnType h1
  ({ name := maybeNewName old new f.name, paramTypes := ps, returnType := r1 }, h2)

/-- Rename a list of functions, threading the heap. -/
def renameFunctions (old new : Str) (l : List FunctionD) (h : Heap) : List FunctionD × Heap :=
  match l with
  | [] => ([], h)
  | f :: rest =>
    let (f1, h1) := renameFunction old new f h
    let (rest1, h2) := renameFunctions old new rest h1
    (f1 :: rest1, h2)

/-- Embeds `RenameModuleVisitor.VisitClass` (via `_ReplaceModuleName`) plus the
rename of the class body. -/
def renameClass (old new : Str) (c : ClassDecl) (h : Heap) : ClassDecl × Heap :=
  let (ps, h1) := renameTypes old new c.parents h
  let (cs, h2) := renameConstants old new c.constants h1
  ({ name := maybeNewName old new c.name, parents := ps, constants := cs }, h2)

/-- Rename a list of classes, threading the heap. -/
def renameClasses (old new : Str) (l : List ClassDecl) (h : Heap) : List ClassDecl × Heap :=
  match l with
  | [] => ([], h)
  | c :: rest =>
    let (c1, h1) := renameClass old new c h
    let (rest1, h2) := renameClasses old new rest h1
    (c1 :: rest1, h2)

/-- Embeds `RenameModuleVisitor` applied to a whole tree.
`VisitTypeDeclUnit` sets the root name to the new module name unconditionally;
every other name-bearing field goes through `maybeNewName`.  (The visitor's
constructor validates that the old name is non-empty and that neither name
ends in a dot; those preconditions are the caller's obligation.) -/
def renameUnit (old new : Str) (t : TypeDeclUnit) (h : Heap) : TypeDeclUnit × Heap :=
  let (cs, h1) := renameConstants old new t.constants h
  let tps := t.typeParams.map (renameTypeParam old new)
  let (cls, h2) := renameClasses old new t.classes h1
  let (fns, h3) := renameFunctions old new t.functions h2
  let (als, h4) := renameAliases old new t.aliases h3
  ({ name := new, constants := cs, typeParams := tps, classes := cls,
     functions := fns, aliases := als }, h4)

/-- Embeds `SerializableAst`: the pickled cache bundle — the tree, the sorted
dependency list, and the optional class-reference node index. -/
structure SerializableAst where
  ast : TypeDeclUnit
  dependencies : List Str
  class_type_nodes : Option (List PType)
deriving DecidableEq

/-- The caller-owned module map: module name to already-resolved tree. -/
abbrev ModuleMap := List (Str × TypeDeclUnit)

/-- The failure modes of resolution: `unrestorableDependency` wraps the
`KeyError` of a failed lookup into `UnrestorableDependencyError` (carrying the
missing symbol's name); `assertionError` is the fatal invariant violation
raised by `_FillLocalReferences` (carrying the offending node). -/
inductive LoadError where
  | unrestorableDependency (name : Str)
  | assertionError (node : PType)
deriving DecidableEq

/-- The literal name suffix `(".__init__")` tested by `StoreAst`. -/
def initSuffix : Str := ".__init__".data

/-- The conditional rename step at the top of `StoreAst`: a root name ending
in `.__init__` gets the module rename dropping that suffix
(`ast.name.rsplit(".__init__", 1)[0]` is the text before the final
occurrence; since the name ends in the suffix, that is the name with the
suffix removed); any other tree passes through unchanged.  The codec
(`SavePickle`) is outside the model; `StoreAst` returns the bundle itself,
together with the updated heap. -/
def storeRename (ast : TypeDeclUnit) (h : Heap) : TypeDeclUnit × Heap :=
  if initSuffix.isSuffixOf ast.name then
    renameUnit ast.name (ast.name.take (ast.name.length - initSuffix.length)) ast h
  else (ast, h)

/-- The body of `StoreAst` after the optional rename: collect, deduplicate and
sort the dependencies, clear every reachable pointer in place, and build the
node index by full traversal. -/
def StoreAst (ast : TypeDeclUnit) (h : Heap) : SerializableAst × Heap :=
  let a := storeRename ast h
  ({ ast := a.1,
     dependencies := ((collectDependencies a.1).dedup).insertionSort (· ≤ ·),
     class_type_nodes := some (findClassTypes a.1) },
   { next := a.2.next, ptrs := clearClassPointers a.1 a.2.ptrs })

/-- Embeds `EnsureAstName`: if the bundle is being loaded under a name different from
the stored tree's name, drop the node index and apply the module rename;
otherwise return the bundle unchanged. -/
def EnsureAstName (sa : SerializableAst) (moduleName : Str) (h : Heap) : SerializableAst × Heap :=
  if moduleName = sa.ast.name then (sa, h)
  else
    let a1 := renameUnit sa.ast.name moduleName sa.ast h
    ({ ast := a1.1, dependencies := sa.dependencies, class_type_nodes := none }, a1.2)

/-- Find a class declaration by fully qualified name in a resolved tree. -/
def findClass (u : TypeDeclUnit) (nm : Str) : Option ClassDecl :=
  u.classes.find? (fun c => c.name == nm)

/-- Find an alias declaration by fully qualified name in a resolved tree. -/
def findAlias (u : TypeDeclUnit) (nm : Str) : Option AliasD :=
  u.aliases.find? (fun a => a.name == nm)

/-- Modelled from the spec: `visitors.LookupExternalTypes.VisitClassType`, the
per-node external resolution step, parameterized by the module map and the
excluded `self_name`.  A reference into the self module is skipped.  An
external reference is looked up by module portion and then by fully qualified
name: a class hit fills the node's pointer in place (already filled references
are not changed) and returns the identical node; a hit that is not a class
(an alias) synthesises a replacement — the alias's target node is returned
instead; a failed lookup raises the unresolved-dependency error carrying the
missing symbol's name.  Non-reference nodes are untouched. -/
def visitRef (mm : ModuleMap) (selfName : Str) (i : Nat) (nm : Str) (p : Ptrs) :
    Except LoadError (PType × Ptrs) :=
  if moduleOf nm = selfName then .ok (.classType i nm, p)
  else
    match List.lookup (moduleOf nm) mm with
    | none => .error (.unrestorableDependency nm)
    | some u =>
      match findClass u nm with
      | some c => .ok (.classType i nm, if p i = none then setPtr p i (some c) else p)
      | none =>
        match findAlias u nm with
        | some a => .ok (a.type, p)
        | none => .error (.unrestorableDependency nm)

/-- Dispatch of the external-resolution step over node kinds: only
class-reference nodes are touched. -/
def visitClassTypeLookup (mm : ModuleMap) (selfName : Str) (n : PType) (p : Ptrs) :
    Except LoadError (PType × Ptrs) :=
  match n with
  | .classType i nm => visitRef mm selfName i nm p
  | other => .ok (other, p)

/-- The fast-path loop of `_LookupClassReferences`: resolve each indexed node
individually; stop with `false` as soon as a resolution returns a node that is
not the input node (the pointer fills made so far are kept); return `true`
when every node came back identical. -/
def scanNodes (mm : ModuleMap) (selfName : Str) (l : List PType) (p : Ptrs) :
    Except LoadError (Bool × Ptrs) :=
  match l with
  | [] => .ok (true, p)
  | n :: rest =>
    match visitClassTypeLookup mm selfName n p with
    | .error e => .error e
    | .ok np =>
      if np.1 = n then scanNodes mm selfName rest np.2 else .ok (false, np.2)

/-- Slow-path resolution of a list of type nodes (full traversal segment). -/
def lookupTypes (mm : ModuleMap) (selfName : Str) (l : List PType) (p : Ptrs) :
    Except LoadError (List PType × Ptrs) :=
  match l with
  | [] => .ok ([], p)
  | n :: rest =>
    match visitClassTypeLookup mm selfName n p with
    | .error e => .error e
    | .ok np =>
      match lookupTypes mm selfName rest np.2 with
      | .error e => .error e
      | .ok rp => .ok (np.1 :: rp.1, rp.2)

/-- Slow-path resolution of constant declarations. -/
def lookupConstants (mm : ModuleMap) (selfName : Str) (l : List ConstantD) (p : Ptrs) :
    Except LoadError (List ConstantD × Ptrs) :=
  match l with
  | [] => .ok ([], p)
  | c :: rest =>
    match visitClassTypeLookup mm selfName c.type p with
    | .error e => .error e
    | .ok np =>
      match lookupConstants mm selfName rest np.2 with
      | .error e => .error e
      | .ok rp => .ok ({ name := c.name, type := np.1 } :: rp.1, rp.2)

/-- Slow-path resolution of alias declarations. -/
def lookupAliases (mm : ModuleMap) (selfName : Str) (l : List AliasD) (p : Ptrs) :
    Except LoadError (List AliasD × Ptrs) :=
  match l with
  | [] => .ok ([], p)
  | a :: rest =>
    match visitClassTypeLookup mm selfName a.type p with
    | .error e => .error e
    | .ok np =>
      match lookupAliases mm selfName rest np.2 with
      | .error e => .error e
      | .ok rp => .ok ({ name := a.name, type := np.1 } :: rp.1, rp.2)

/-- Slow-path resolution of function declarations. -/
def lookupFunctions (mm : ModuleMap) (selfName : Str) (l : List FunctionD) (p : Ptrs) :
    Except LoadError (List FunctionD × Ptrs) :=
  match l with
  | [] => .ok ([], p)
  | f :: rest =>
    match lookupTypes mm selfName f.paramTypes p with
    | .error e => .error e
    | .ok pp =>
      match visitClassTypeLookup mm selfName f.returnType pp.2 with
      | .error e => .error e
      | .ok np =>
        match lookupFunctions mm selfName rest np.2 with
        | .error e => .error e
        | .ok rp =>
          .ok ({ name := f.name, paramTypes := pp.1, returnType := np.1 } :: rp.1, rp.2)

/-- Slow-path resolution of class declarations. -/
def lookupClasses (mm : ModuleMap) (selfName : Str) (l : List ClassDecl) (p : Ptrs) :
    Except LoadError (List ClassDecl × Ptrs) :=
  match l with
  | [] => .ok ([], p)
  | c :: rest =>
    match lookupTypes mm selfName c.parents p with
    | .error e => .error e
    | .ok pp =>
      match lookupConstants mm selfName c.constants pp.2 with
      | .error e => .error e
      | .ok cp =>
        match lookupClasses mm selfName rest cp.2 with
        | .error e => .error e
        | .ok rp =>
          .ok ({ name := c.name, parents := pp.1, constants := cp.1 } :: rp.1, rp.2)

/-- Modelled from the spec: the slow path of external resolution — one full
top-down traversal substituting every reachable class-reference node through
`visitClassTypeLookup` (`raw_ast.Visit(class_lookup)`). -/
def lookupUnit (mm : ModuleMap) (selfName : Str) (t : TypeDeclUnit) (p : Ptrs) :
    Except LoadError (TypeDeclUnit × Ptrs) :=
  match lookupConstants mm selfName t.constants p with
  | .error e => .error e
  | .ok cs =>
    match lookupClasses mm selfName t.classes cs.2 with
    | .error e => .error e
    | .ok cls =>
      match lookupFunctions mm selfName t.functions cls.2 with
      | .error e => .error e
      | .ok fns =>
        match lookupAliases mm selfName t.aliases fns.2 with
        | .error e => .error e
        | .ok als =>
          .ok ({ name := t.name, constants := cs.1, typeParams := t.typeParams,
                 classes := cls.1, functions := fns.1, aliases := als.1 }, als.2)

/-- The first half of `_LookupClassReferences`: with a truthy (present and
non-empty) node index, scan the indexed nodes individually; if a resolution
returns a different node, discard the index (set it to `none`) and stop the
scan.  An absent or empty index passes through untouched.  A `KeyError` from
a lookup becomes `UnrestorableDependencyError`. -/
def lookupFast (sa : SerializableAst) (mm : ModuleMap) (selfName : Str) (p : Ptrs) :
    Except LoadError (SerializableAst × Ptrs) :=
  match sa.class_type_nodes with
  | some (n :: ns) =>
    match scanNodes mm selfName (n :: ns) p with
    | .error e => .error e
    | .ok (true, p1) => .ok (sa, p1)
    | .ok (false, p1) =>
      .ok ({ ast := sa.ast, dependencies := sa.dependencies, class_type_nodes := none }, p1)
  | _ => .ok (sa, p)

/-- The second half of `_LookupClassReferences`: exactly when the node index
is `none` after the fast path, rebuild the whole tree by the full traversal
(`raw_ast.Visit(class_lookup)`); the rebuilt bundle keeps a `none` index. -/
def lookupFull (sa : SerializableAst) (mm : ModuleMap) (selfName : Str) (p : Ptrs) :
    Except LoadError (SerializableAst × Ptrs) :=
  match sa.class_type_nodes with
  | none =>
    match lookupUnit mm selfName sa.ast p with
    | .error e => .error e
    | .ok ap =>
      .ok ({ ast := ap.1, dependencies := sa.dependencies, class_type_nodes := none }, ap.2)
  | some _ => .ok (sa, p)

/-- Embeds `_LookupClassReferences`, assembled from its two halves. -/
def lookupClassReferences (sa : SerializableAst) (mm : ModuleMap) (selfName : Str) (p : Ptrs) :
    Except LoadError (SerializableAst × Ptrs) :=
  match lookupFast sa mm selfName p with
  | .error e => .error e
  | .ok sp => lookupFull sp.1 mm selfName sp.2

/-- Modelled from the spec: the lookup performed by
`visitors.FillInLocalPointers` for one name — the map entry for the name's
module portion, then the class of that fully qualified name inside it. -/
def lookupLocal (lmap : ModuleMap) (nm : Str) : Option ClassDecl :=
  match List.lookup (moduleOf nm) lmap with
  | some u => findClass u nm
  | none => none

/-- Modelled from the spec: `visitors.FillInLocalPointers.EnterClassType`, the
in-place local pointer fill for one node: on a successful lookup the node's
heap slot is set; otherwise nothing changes.  Non-reference nodes are
untouched. -/
def fillRef (lmap : ModuleMap) (p : Ptrs) (i : Nat) (nm : Str) : Ptrs :=
  match lookupLocal lmap nm with
  | some c => setPtr p i (some c)
  | none => p

/-- Dispatch of `fillRef` over node kinds. -/
def fillNode (lmap : ModuleMap) (p : Ptrs) (n : PType) : Ptrs :=
  match n with
  | .classType i nm => fillRef lmap p i nm
  | _ => p

/-- The indexed loop of `_FillLocalReferences`: fill each indexed node in
place and raise the fatal `AssertionError` if a node's pointer is still null
after its fill. -/
def fillIndexed (lmap : ModuleMap) (l : List PType) (p : Ptrs) : Except LoadError Ptrs :=
  match l with
  | [] => .ok p
  | n :: rest =>
    let p1 := fillNode lmap p n
    match n with
    | .classType i _ =>
      if p1 i = none then .error (.assertionError n) else fillIndexed lmap rest p1
    | _ => fillIndexed lmap rest p1

/-- Embeds `_FillLocalReferences`: with a truthy (present and non-empty) node index,
iterate exactly the indexed nodes with the null-pointer assertion; otherwise
fill by full traversal, without any assertion. -/
def fillLocalReferences (sa : SerializableAst) (lmap : ModuleMap) (p : Ptrs) :
    Except LoadError Ptrs :=
  match sa.class_type_nodes with
  | some (n :: rest) => fillIndexed lmap (n :: rest) p
  | _ => .ok ((typesOf sa.ast).foldl (fillNode lmap) p)

/-- Embeds `ProcessAst`: external resolution (excluding the tree's own name) followed
by local resolution against the map binding the empty name and the tree's own
name to the externally-resolved tree itself; returns that tree.  The function
performs no check that the module is absent from the module map, and it does
not insert the resolved tree into the map. -/
def ProcessAst (sa : SerializableAst) (mm : ModuleMap) (p : Ptrs) :
    Except LoadError (TypeDeclUnit × Ptrs) :=
  match lookupClassReferences sa mm sa.ast.name p with
  | .error e => .error e
  | .ok sp =>
    match fillLocalReferences sp.1 [([], sp.1.ast), (sp.1.ast.name, sp.1.ast)] sp.2 with
    | .error e => .error e
    | .ok p2 => .ok (sp.1.ast, p2)

/-- The tree component of a `ProcessAst` run (discards the heap). -/
def processedTree (sa : SerializableAst) (mm : ModuleMap) (p : Ptrs) :
    Except LoadError TypeDeclUnit :=
  (ProcessAst sa mm p).map Prod.fst

/-- Can the per-node external-resolution step handle this node while returning
the identical node (self reference skipped, or external class hit)? -/
def okExtRef (mm : ModuleMap) (selfName : Str) (nm : Str) : Bool :=
  if moduleOf nm = selfName then true
  else
    match List.lookup (moduleOf nm) mm with
    | some u => (findClass u nm).isSome
    | none => false

/-- Dispatch of `okExtRef` over node kinds. -/
def okExtNode (mm : ModuleMap) (selfName : Str) (n : PType) : Bool :=
  match n with
  | .classType _ nm => okExtRef mm selfName nm
  | _ => true

/-- Does the local-resolution step of a self-module reference succeed on this
node against the given tree? -/
def selfResRef (u : TypeDeclUnit) (nm : Str) : Bool :=
  if moduleOf nm = u.name then (findClass u nm).isSome else true

/-- Dispatch of `selfResRef` over node kinds. -/
def selfResolvable (u : TypeDeclUnit) (n : PType) : Bool :=
  match n with
  | .classType _ nm => selfResRef u nm
  | _ => true

/-- Is this node one on which the per-node external-resolution step raises the
unresolved-dependency error (an external reference whose module, or the
name inside its module, is absent)? -/
def badRef (mm : ModuleMap) (selfName : Str) (nm : Str) : Bool :=
  if moduleOf nm = selfName then false
  else
    match List.lookup (moduleOf nm) mm with
    | none => true
    | some u => (findClass u nm).isNone && (findAlias u nm).isNone

/-- Dispatch of `badRef` over node kinds. -/
def badNode (mm : ModuleMap) (selfName : Str) (n : PType) : Bool :=
  match n with
  | .classType _ nm => badRef mm selfName nm
  | _ => false

/-- The heap effect of a successful identity-preserving external-resolution
step on one node (used to describe the fast-path scan). -/
def extFillRef (mm : ModuleMap) (selfName : Str) (p : Ptrs) (i : Nat) (nm : Str) : Ptrs :=
  if moduleOf nm = selfName then p
  else
    match List.lookup (moduleOf nm) mm with
    | some u =>
      match findClass u nm with
      | some c => if p i = none then setPtr p i (some c) else p
      | none => p
    | none => p

/-- Dispatch of `extFillRef` over node kinds. -/
def extFill (mm : ModuleMap) (selfName : Str) (p : Ptrs) (n : PType) : Ptrs :=
  match n with
  | .classType i nm => extFillRef mm selfName p i nm
  | _ => p

/-- Index soundness: whenever the bundle's node index is present it is exactly
the list of class-reference nodes reachable from the bundle's tree by full
traversal. -/
def indexConsistent (sa : SerializableAst) : Prop :=
  ∀ ns, sa.class_type_nodes = some ns → ns = findClassTypes sa.ast

/-- An empty pointer heap (every slot null). -/
def pnone : Ptrs := fun _ => none

/-- A concrete allocation state used by the concrete scenarios below. -/
def heap0 : Heap := { next := 100, ptrs := pnone }

/-- A concrete input tree for the renaming examples (module `m1` with one
constant and one class, both members of `m1`). -/
def tW4 : TypeDeclUnit :=
  { name := str "m1",
    constants := [{ name := str "m1.c", type := .classType 0 (str "m1.A") }],
    typeParams := [],
    classes := [{ name := str "m1.A", parents := [], constants := [] }],
    functions := [], aliases := [] }

/-- A concrete resolved class declaration (used as a pointer target). -/
def cW8 : ClassDecl := { name := str "m.A", parents := [], constants := [] }

/-- A concrete heap in which node identity `0` has a resolved pointer. -/
def hW8 : Heap := { next := 5, ptrs := fun j => if j = 0 then some cW8 else none }

/-- A concrete resolved external module `ext` with one class `ext.B`. -/
def extU : TypeDeclUnit :=
  { name := str "ext", constants := [], typeParams := [],
    classes := [{ name := str "ext.B", parents := [], constants := [] }],
    functions := [], aliases := [] }

/-- A concrete module `m` with one self reference (`m.A`) and one external
reference (`ext.B`). -/
def tW1 : TypeDeclUnit :=
  { name := str "m",
    constants := [{ name := str "m.c", type := .classType 0 (str "m.A") },
                  { name := str "m.d", type := .classType 1 (str "ext.B") }],
    typeParams := [],
    classes := [{ name := str "m.A", parents := [], constants := [] }],
    functions := [], aliases := [] }

/-- A module map resolving the dependencies of `tW1`. -/
def mmW1 : ModuleMap := [(str "ext", extU)]

/-- A concrete package-initializer module: its name ends in `.__init__` and it
contains a self reference to its own class. -/
def tX1 : TypeDeclUnit :=
  { name := str "pkg.__init__",
    constants := [{ name := str "pkg.__init__.c",
                    type := .classType 0 (str "pkg.__init__.A") }],
    typeParams := [],
    classes := [{ name := str "pkg.__init__.A", parents := [], constants := [] }],
    functions := [], aliases := [] }

/-- A resolved tree standing for the package `pkg` in the module map. -/
def pkgU : TypeDeclUnit :=
  { name := str "pkg", constants := [], typeParams := [],
    classes := [{ name := str "pkg.A", parents := [], constants := [] }],
    functions := [], aliases := [] }

/-- A module map containing a resolved tree for every dependency of the
stored form of `tX1` (its only dependency is `pkg` itself). -/
def mmX1 : ModuleMap := [(str "pkg", pkgU)]

/-- Decidable equality for `Except` results (needed to evaluate concrete
runs). -/
instance {e a : Type} [DecidableEq e] [DecidableEq a] : DecidableEq (Except e a) :=
  fun x y =>
    match x, y with
    | .error u, .error v =>
      if h : u = v then isTrue (by rw [h]) else isFalse (by intro hc; cases hc; exact h rfl)
    | .error _, .ok _ => isFalse (by intro hc; cases hc)
    | .ok _, .error _ => isFalse (by intro hc; cases hc)
    | .ok u, .ok v =>
      if h : u = v then isTrue (by rw [h]) else isFalse (by intro hc; cases hc; exact h rfl)

/-- A tree with one external reference to `pkg.Missing`. -/
def tBad3 : TypeDeclUnit :=
  { name := str "m",
    constants := [{ name := str "m.c", type := .classType 0 (str "pkg.Missing") }],
    typeParams := [], classes := [], functions := [], aliases := [] }

/-- A bundle of `tBad3` carrying no node index. -/
def saW3 : SerializableAst :=
  { ast := tBad3, dependencies := [str "pkg"], class_type_nodes := none }

/-- A module tree whose class `A` holds an external reference (`ext.B`) and
which also contains a self reference to `A` itself (node identity 6). -/
def tW5 : TypeDeclUnit :=
  { name := str "m",
    constants := [{ name := str "m.c", type := .classType 6 (str "m.A") }],
    typeParams := [],
    classes := [{ name := str "m.A", parents := [],
                  constants := [{ name := str "m.A.x",
                                  type := .classType 5 (str "ext.B") }] }],
    functions := [], aliases := [] }

/-- An external module in which `ext.B` resolves to an alias, forcing the
synthesis of a replacement node during external resolution. -/
def extAliasU : TypeDeclUnit :=
  { name := str "ext", constants := [], typeParams := [], classes := [],
    functions := [],
    aliases := [{ name := str "ext.B", type := .namedType (str "other") }] }

/-- The module map used by the ordering scenario. -/
def mmW5 : ModuleMap := [(str "ext", extAliasU)]

/-- The class `A` as it is before external resolution restructures it. -/
def oldA5 : ClassDecl :=
  { name := str "m.A", parents := [],
    constants := [{ name := str "m.A.x", type := .classType 5 (str "ext.B") }] }

/-- The class `A` after external resolution replaced its member's reference
node by the alias target. -/
def newA5 : ClassDecl :=
  { name := str "m.A", parents := [],
    constants := [{ name := str "m.A.x", type := .namedType (str "other") }] }

/-- A module map that already contains the name of the module being loaded
(`m1`, the name of `tW4`). -/
def mmW6 : ModuleMap := [(str "m1", pkgU)]

/-- A tree with a declaration but no class-reference nodes at all. -/
def tW9 : TypeDeclUnit :=
  { name := str "foo",
    constants := [{ name := str "foo.x", type := .anything }],
    typeParams := [], classes := [], functions := [], aliases := [] }

/-- A bundle whose node index is present but empty while its tree does
contain a class-reference node. -/
def saW7 : SerializableAst :=
  { ast := tW4, dependencies := [], class_type_nodes := some [] }

/-- The local resolution map for the module `m1` (the tree `tW4`). -/
def lmapW7 : ModuleMap := [(([] : Str), tW4), (str "m1", tW4)]

-- Auxiliary lemmas ---------------------------------------------------------

theorem isPre_append (l r : Str) : isPre l (l ++ r) = true := by
  induction l with
  | nil => rfl
  | cons a as ih => simp [isPre, ih]

theorem contains_eq_false (l : Str) (c : Char) (h : c ∉ l) : l.contains c = false := by
  simp [List.contains, h]

theorem contains_eq_true (l : Str) (c : Char) (h : c ∈ l) : l.contains c = true := by
  simp [List.contains, h]

theorem moduleOf_append (m y : Str) (hy : '.' ∉ y) : moduleOf (m ++ '.' :: y) = m := by
  induction m with
  | nil =>
    show moduleOf ('.' :: y) = []
    unfold moduleOf
    rw [contains_eq_false y '.' hy]
    simp
  | cons a m ih =>
    have hmem : '.' ∈ m ++ '.' :: y := by simp
    simp [moduleOf, contains_eq_true _ '.' hmem, ih]

theorem maybeNewName_one_seg (old new x : Str) (hx : '.' ∉ x) :
    maybeNewName old new (old ++ '.' :: x) = new ++ '.' :: x := by
  have hsplit : old ++ '.' :: x = (old ++ ['.']) ++ x := by simp
  have hne : old ++ '.' :: x ≠ [] := by simp
  have hp : isPre (old ++ ['.']) (old ++ '.' :: x) = true := by
    rw [hsplit]; exact isPre_append _ _
  unfold maybeNewName
  rw [if_neg hne, if_pos hp]
  have hdrop : (old ++ '.' :: x).drop (old ++ ['.']).length = x := by
    rw [hsplit]; exact List.drop_left _ _
  simp only [hdrop, contains_eq_false x '.' hx]
  simp

theorem maybeNewName_deep (old new x y : Str) :
    maybeNewName old new (old ++ '.' :: (x ++ '.' :: y)) = old ++ '.' :: (x ++ '.' :: y) := by
  have hsplit : old ++ '.' :: (x ++ '.' :: y) = (old ++ ['.']) ++ (x ++ '.' :: y) := by simp
  have hne : old ++ '.' :: (x ++ '.' :: y) ≠ [] := by simp
  have hp : isPre (old ++ ['.']) (old ++ '.' :: (x ++ '.' :: y)) = true := by
    rw [hsplit]; exact isPre_append _ _
  unfold maybeNewName
  rw [if_neg hne, if_pos hp]
  have hdrop : (old ++ '.' :: (x ++ '.' :: y)).drop (old ++ ['.']).length = x ++ '.' :: y := by
    rw [hsplit]; exact List.drop_left _ _
  have hmem : '.' ∈ x ++ '.' :: y := by simp
  simp only [hdrop, contains_eq_true _ '.' hmem]
  simp

theorem maybeNewName_not_pre (old new n : Str) (h : isPre (old ++ ['.']) n = false) :
    maybeNewName old new n = n := by
  unfold maybeNewName
  by_cases hn : n = []
  · simp [hn]
  · rw [if_neg hn, if_neg (by simp [h])]

theorem renameConstant_eq (old new : Str) (c : ConstantD) (h : Heap) :
    renameConstant old new c h =
      ({ name := maybeNewName old new c.name, type := (renameType old new c.type h).1 },
       (renameType old new c.type h).2) := rfl

theorem renameAlias_eq (old new : Str) (a : AliasD) (h : Heap) :
    renameAlias old new a h =
      ({ name := maybeNewName old new a.name, type := (renameType old new a.type h).1 },
       (renameType old new a.type h).2) := rfl

theorem renameFunction_name (old new : Str) (f : FunctionD) (h : Heap) :
    ((renameFunction old new f h).1).name = maybeNewName old new f.name := rfl

theorem renameClass_name (old new : Str) (c : ClassDecl) (h : Heap) :
    ((renameClass old new c h).1).name = maybeNewName old new c.name := rfl

theorem renameConstants_cons (old new : Str) (c : ConstantD) (l : List ConstantD) (h : Heap) :
    renameConstants old new (c :: l) h =
      ((renameConstant old new c h).1
          :: (renameConstants old new l (renameConstant old new c h).2).1,
       (renameConstants old new l (renameConstant old new c h).2).2) := rfl

theorem renameClasses_cons (old new : Str) (c : ClassDecl) (l : List ClassDecl) (h : Heap) :
    renameClasses old new (c :: l) h =
      ((renameClass old new c h).1
          :: (renameClasses old new l (renameClass old new c h).2).1,
       (renameClasses old new l (renameClass old new c h).2).2) := rfl

theorem renameFunctions_cons (old new : Str) (f : FunctionD) (l : List FunctionD) (h : Heap) :
    renameFunctions old new (f :: l) h =
      ((renameFunction old new f h).1
          :: (renameFunctions old new l (renameFunction old new f h).2).1,
       (renameFunctions old new l (renameFunction old new f h).2).2) := rfl

theorem renameAliases_cons (old new : Str) (a : AliasD) (l : List AliasD) (h : Heap) :
    renameAliases old new (a :: l) h =
      ((renameAlias old new a h).1
          :: (renameAliases old new l (renameAlias old new a h).2).1,
       (renameAliases old new l (renameAlias old new a h).2).2) := rfl

theorem renameConstants_names (old new : Str) (l : List ConstantD) (h : Heap) :
    ((renameConstants old new l h).1).map (fun c => c.name)
      = l.map (fun c => maybeNewName old new c.name) := by
  induction l generalizing h with
  | nil => rfl
  | cons c rest ih => simp [renameConstants_cons, renameConstant_eq, ih]

theorem renameClasses_names (old new : Str) (l : List ClassDecl) (h : Heap) :
    ((renameClasses old new l h).1).map (fun c => c.name)
      = l.map (fun c => maybeNewName old new c.name) := by
  induction l generalizing h with
  | nil => rfl
  | cons c rest ih => simp [renameClasses_cons, renameClass_name, ih]

theorem renameFunctions_names (old new : Str) (l : List FunctionD) (h : Heap) :
    ((renameFunctions old new l h).1).map (fun f => f.name)
      = l.map (fun f => maybeNewName old new f.name) := by
  induction l generalizing h with
  | nil => rfl
  | cons f rest ih => simp [renameFunctions_cons, renameFunction_name, ih]

theorem renameAliases_names (old new : Str) (l : List AliasD) (h : Heap) :
    ((renameAliases old new l h).1).map (fun a => a.name)
      = l.map (fun a => maybeNewName old new a.name) := by
  induction l generalizing h with
  | nil => rfl
  | cons a rest ih => simp [renameAliases_cons, renameAlias_eq, ih]

theorem renameUnit_name (old new : Str) (t : TypeDeclUnit) (h : Heap) :
    ((renameUnit old new t h).1).name = new := rfl

theorem renameUnit_constants (old new : Str) (t : TypeDeclUnit) (h : Heap) :
    ((renameUnit old new t h).1).constants = (renameConstants old new t.constants h).1 := rfl

theorem renameUnit_typeParams (old new : Str) (t : TypeDeclUnit) (h : Heap) :
    ((renameUnit old new t h).1).typeParams = t.typeParams.map (renameTypeParam old new) := rfl

theorem renameUnit_classes (old new : Str) (t : TypeDeclUnit) (h : Heap) :
    ((renameUnit old new t h).1).classes
      = (renameClasses old new t.classes (renameConstants old new t.constants h).2).1 := rfl

theorem renameType_classType (old new : Str) (i : Nat) (nm : Str) (h : Heap) :
    ∃ i2, (renameType old new (.classType i nm) h).1
        = .classType i2 (maybeNewName old new nm)
      ∧ ((renameType old new (.classType i nm) h).2).ptrs i2 = h.ptrs i := by
  simp only [renameType]
  by_cases hc : maybeNewName old new nm = nm
  · rw [if_pos hc]
    exact ⟨i, by rw [hc], rfl⟩
  · rw [if_neg hc]
    refine ⟨h.next, rfl, ?_⟩
    show setPtr h.ptrs h.next (h.ptrs i) h.next = h.ptrs i
    simp [setPtr]

theorem renameUnit_functions (old new : Str) (t : TypeDeclUnit) (h : Heap) :
    ((renameUnit old new t h).1).functions
      = (renameFunctions old new t.functions
          (renameClasses old new t.classes (renameConstants old new t.constants h).2).2).1 := rfl

theorem renameUnit_aliases (old new : Str) (t : TypeDeclUnit) (h : Heap) :
    ((renameUnit old new t h).1).aliases
      = (renameAliases old new t.aliases
          (renameFunctions old new t.functions
            (renameClasses old new t.classes (renameConstants old new t.constants h).2).2).2).1 := rfl

/-- C4: renaming module `m1` to `m2` rewrites a name-bearing field named
`m1.Foo` (exactly one dot-free segment past the prefix) to `m2.Foo`; a field
named `m1.Foo.Bar` (more than one segment past the prefix), or one not
starting with `m1.`, is left unchanged; and the root node's name is set to
`m2` unconditionally.  The constant, class, function, alias, type-parameter
scope and class-reference name fields all go through this one rewriting
function. -/
theorem claim_C4 (m1 m2 : Str) (t : TypeDeclUnit) (h : Heap) (x y n : Str)
    (hx : '.' ∉ x) :
    ((renameUnit m1 m2 t h).1).name = m2
    ∧ maybeNewName m1 m2 (m1 ++ '.' :: x) = m2 ++ '.' :: x
    ∧ maybeNewName m1 m2 (m1 ++ '.' :: (x ++ '.' :: y)) = m1 ++ '.' :: (x ++ '.' :: y)
    ∧ (isPre (m1 ++ ['.']) n = false → maybeNewName m1 m2 n = n)
    ∧ ((renameUnit m1 m2 t h).1).constants.map (fun c => c.name)
        = t.constants.map (fun c => maybeNewName m1 m2 c.name)
    ∧ ((renameUnit m1 m2 t h).1).classes.map (fun c => c.name)
        = t.classes.map (fun c => maybeNewName m1 m2 c.name)
    ∧ ((renameUnit m1 m2 t h).1).functions.map (fun f => f.name)
        = t.functions.map (fun f => maybeNewName m1 m2 f.name)
    ∧ ((renameUnit m1 m2 t h).1).aliases.map (fun a => a.name)
        = t.aliases.map (fun a => maybeNewName m1 m2 a.name)
    ∧ ((renameUnit m1 m2 t h).1).typeParams.map (fun tp => tp.scope)
        = t.typeParams.map (fun tp => maybeNewName m1 m2 tp.scope)
    ∧ (∀ i nm, ∃ i2, (renameType m1 m2 (.classType i nm) h).1
        = .classType i2 (maybeNewName m1 m2 nm)) := by
  refine ⟨renameUnit_name m1 m2 t h,
    maybeNewName_one_seg m1 m2 x hx,
    maybeNewName_deep m1 m2 x y,
    maybeNewName_not_pre m1 m2 n,
    ?_, ?_, ?_, ?_, ?_, ?_⟩
  · rw [renameUnit_constants]; exact renameConstants_names m1 m2 t.constants h
  · rw [renameUnit_classes]; exact renameClasses_names m1 m2 t.classes _
  · rw [renameUnit_functions]; exact renameFunctions_names m1 m2 t.functions _
  · rw [renameUnit_aliases]; exact renameAliases_names m1 m2 t.aliases _
  · rw [renameUnit_typeParams]
    simp [renameTypeParam]
  · intro i nm
    obtain ⟨i2, h1, _⟩ := renameType_classType m1 m2 i nm h
    exact ⟨i2, h1⟩

theorem claim_C4_witness :
    maybeNewName (str "m1") (str "m2") (str "m1" ++ '.' :: str "Foo")
        = str "m2" ++ '.' :: str "Foo"
    ∧ maybeNewName (str "m1") (str "m2") (str "m1" ++ '.' :: (str "Foo" ++ '.' :: str "Bar"))
        = str "m1" ++ '.' :: (str "Foo" ++ '.' :: str "Bar")
    ∧ ((renameUnit (str "m1") (str "m2") tW4 heap0).1).name = str "m2" :=
  have h := claim_C4 (str "m1") (str "m2") tW4 heap0 (str "Foo") (str "Bar")
    (str "other.x") (by decide)
  ⟨h.2.1, h.2.2.1, h.1⟩

/-- C8: applying the module renamer to a class-reference node whose resolved
pointer is already set preserves that pointer value unchanged in the output
node — only the node's name field is rewritten. -/
theorem claim_C8 (old new : Str) (i : Nat) (nm : Str) (h : Heap) (c : ClassDecl)
    (hset : h.ptrs i = some c) :
    ∃ i2, (renameType old new (.classType i nm) h).1
        = .classType i2 (maybeNewName old new nm)
      ∧ ((renameType old new (.classType i nm) h).2).ptrs i2 = some c := by
  obtain ⟨i2, h1, h2⟩ := renameType_classType old new i nm h
  exact ⟨i2, h1, by rw [h2, hset]⟩

theorem claim_C8_witness :
    ∃ i2, (renameType (str "m") (str "n") (.classType 0 (str "m.A")) hW8).1
        = .classType i2 (maybeNewName (str "m") (str "n") (str "m.A"))
      ∧ ((renameType (str "m") (str "n") (.classType 0 (str "m.A")) hW8).2).ptrs i2
          = some cW8 :=
  claim_C8 (str "m") (str "n") 0 (str "m.A") hW8 cW8 (by decide)

theorem foldl_clearNode_none (l : List PType) (p : Ptrs) (j : Nat) (h : p j = none) :
    l.foldl clearNode p j = none := by
  induction l generalizing p with
  | nil => exact h
  | cons n rest ih =>
    apply ih
    cases n with
    | classType i nm =>
      simp only [clearNode, setPtr]
      by_cases hji : j = i <;> simp [hji, h]
    | namedType nm => exact h
    | anything => exact h

theorem foldl_clearNode_mem (l : List PType) (p : Ptrs) (i : Nat) (nm : Str)
    (hmem : PType.classType i nm ∈ l) : l.foldl clearNode p i = none := by
  induction l generalizing p with
  | nil => cases hmem
  | cons n rest ih =>
    rcases List.mem_cons.mp hmem with h1 | h1
    · rw [← h1, List.foldl_cons]
      apply foldl_clearNode_none
      show setPtr p i none i = none
      simp [setPtr]
    · exact ih _ h1

theorem clearClassPointers_mem (t : TypeDeclUnit) (p : Ptrs) (i : Nat) (nm : Str)
    (hmem : PType.classType i nm ∈ typesOf t) : clearClassPointers t p i = none :=
  foldl_clearNode_mem (typesOf t) p i nm hmem

theorem StoreAst_ast (ast : TypeDeclUnit) (h : Heap) :
    (StoreAst ast h).1.ast = (storeRename ast h).1 := rfl

theorem StoreAst_index (ast : TypeDeclUnit) (h : Heap) :
    (StoreAst ast h).1.class_type_nodes = some (findClassTypes (storeRename ast h).1) := rfl

theorem StoreAst_deps (ast : TypeDeclUnit) (h : Heap) :
    (StoreAst ast h).1.dependencies
      = ((collectDependencies (storeRename ast h).1).dedup).insertionSort (· ≤ ·) := rfl

theorem StoreAst_ptrs (ast : TypeDeclUnit) (h : Heap) :
    (StoreAst ast h).2.ptrs
      = clearClassPointers (storeRename ast h).1 (storeRename ast h).2.ptrs := rfl

theorem storeRename_of_not_suffix (ast : TypeDeclUnit) (h : Heap)
    (hs : initSuffix.isSuffixOf ast.name = false) : storeRename ast h = (ast, h) := by
  unfold storeRename
  rw [if_neg (by simp [hs])]

/-- C10: `StoreAst` is not read-only on its input — the pointer-clearing step
mutates class-reference nodes in place, so after it returns, every
class-reference node shared between the stored tree and the caller's tree has
a null resolved pointer; in particular, when no `.__init__` rename applies,
the stored tree is the caller's tree itself and every reachable
class-reference pointer of the caller's own tree has been unset. -/
theorem claim_C10 (ast : TypeDeclUnit) (h : Heap) :
    (∀ i nm, PType.classType i nm ∈ typesOf (StoreAst ast h).1.ast →
        PType.classType i nm ∈ typesOf ast → (StoreAst ast h).2.ptrs i = none)
    ∧ (initSuffix.isSuffixOf ast.name = false →
        ((StoreAst ast h).1.ast = ast
          ∧ ∀ i nm, PType.classType i nm ∈ typesOf ast → (StoreAst ast h).2.ptrs i = none)) := by
  constructor
  · intro i nm hmem _
    rw [StoreAst_ptrs]
    exact clearClassPointers_mem _ _ i nm (by rw [← StoreAst_ast]; exact hmem)
  · intro hs
    have hsr : storeRename ast h = (ast, h) := storeRename_of_not_suffix ast h hs
    constructor
    · rw [StoreAst_ast, hsr]
    · intro i nm hmem
      rw [StoreAst_ptrs, hsr]
      exact clearClassPointers_mem _ _ i nm hmem

theorem claim_C10_witness :
    (StoreAst tW4 heap0).1.ast = tW4 ∧ (StoreAst tW4 heap0).2.ptrs 0 = none :=
  have h := (claim_C10 tW4 heap0).2 (by decide)
  ⟨h.1, h.2 0 (str "m1.A") (by decide)⟩

theorem EnsureAstName_same (sa : SerializableAst) (m : Str) (h : Heap)
    (hm : m = sa.ast.name) : EnsureAstName sa m h = (sa, h) := by
  unfold EnsureAstName
  rw [if_pos hm]

theorem EnsureAstName_rename (sa : SerializableAst) (m : Str) (h : Heap)
    (hm : m ≠ sa.ast.name) :
    EnsureAstName sa m h
      = ({ ast := (renameUnit sa.ast.name m sa.ast h).1,
           dependencies := sa.dependencies, class_type_nodes := none },
         (renameUnit sa.ast.name m sa.ast h).2) := by
  unfold EnsureAstName
  rw [if_neg hm]

theorem lookupFast_none (sa : SerializableAst) (mm : ModuleMap) (sn : Str) (p : Ptrs)
    (h : sa.class_type_nodes = none) : lookupFast sa mm sn p = .ok (sa, p) := by
  unfold lookupFast
  rw [h]

theorem lookupFast_empty (sa : SerializableAst) (mm : ModuleMap) (sn : Str) (p : Ptrs)
    (h : sa.class_type_nodes = some []) : lookupFast sa mm sn p = .ok (sa, p) := by
  unfold lookupFast
  rw [h]

theorem lookupFast_cons (sa : SerializableAst) (mm : ModuleMap) (sn : Str) (p : Ptrs)
    (n : PType) (ns : List PType) (h : sa.class_type_nodes = some (n :: ns)) :
    lookupFast sa mm sn p
      = (match scanNodes mm sn (n :: ns) p with
         | .error e => .error e
         | .ok (true, p1) => .ok (sa, p1)
         | .ok (false, p1) =>
           .ok ({ ast := sa.ast, dependencies := sa.dependencies,
                  class_type_nodes := none }, p1)) := by
  unfold lookupFast
  rw [h]

theorem lookupFull_none (sa : SerializableAst) (mm : ModuleMap) (sn : Str) (p : Ptrs)
    (h : sa.class_type_nodes = none) :
    lookupFull sa mm sn p
      = (match lookupUnit mm sn sa.ast p with
         | .error e => .error e
         | .ok ap =>
           .ok ({ ast := ap.1, dependencies := sa.dependencies,
                  class_type_nodes := none }, ap.2)) := by
  unfold lookupFull
  rw [h]

theorem lookupFull_some (sa : SerializableAst) (mm : ModuleMap) (sn : Str) (p : Ptrs)
    (ns : List PType) (h : sa.class_type_nodes = some ns) :
    lookupFull sa mm sn p = .ok (sa, p) := by
  unfold lookupFull
  rw [h]

theorem lookupClassReferences_eq (sa : SerializableAst) (mm : ModuleMap) (sn : Str) (p : Ptrs) :
    lookupClassReferences sa mm sn p
      = (match lookupFast sa mm sn p with
         | .error e => .error e
         | .ok sp => lookupFull sp.1 mm sn sp.2) := rfl

/-- C2: index soundness — the bundle built by `StoreAst` carries exactly the
reachable class-reference nodes as its index; `EnsureAstName` preserves index
soundness and drops the index whenever it renames; `_LookupClassReferences`
preserves index soundness, and as soon as a scanned node's resolution returns
a structurally different node it discards the index and falls through to the
full-tree traversal. -/
theorem claim_C2 :
    (∀ ast h, indexConsistent (StoreAst ast h).1)
    ∧ (∀ sa m h, indexConsistent sa → indexConsistent (EnsureAstName sa m h).1)
    ∧ (∀ sa m h, m ≠ sa.ast.name → (EnsureAstName sa m h).1.class_type_nodes = none)
    ∧ (∀ sa mm sn p out, indexConsistent sa →
        lookupClassReferences sa mm sn p = .ok out → indexConsistent out.1)
    ∧ (∀ sa mm sn p n ns p1, sa.class_type_nodes = some (n :: ns) →
        scanNodes mm sn (n :: ns) p = .ok (false, p1) →
        lookupClassReferences sa mm sn p
          = (match lookupUnit mm sn sa.ast p1 with
             | .error e => .error e
             | .ok ap => .ok ({ ast := ap.1, dependencies := sa.dependencies,
                                class_type_nodes := none }, ap.2))) := by
  refine ⟨?_, ?_, ?_, ?_, ?_⟩
  · intro ast h ns hns
    rw [StoreAst_index] at hns
    cases hns
    rfl
  · intro sa m h hInv
    by_cases hm : m = sa.ast.name
    · rw [EnsureAstName_same sa m h hm]
      exact hInv
    · rw [EnsureAstName_rename sa m h hm]
      intro ns hns
      cases hns
  · intro sa m h hm
    rw [EnsureAstName_rename sa m h hm]
  · intro sa mm sn p out hInv hok
    rw [lookupClassReferences_eq] at hok
    cases hc : sa.class_type_nodes with
    | none =>
      rw [lookupFast_none sa mm sn p hc] at hok
      simp only [] at hok
      rw [lookupFull_none sa mm sn p hc] at hok
      cases hu : lookupUnit mm sn sa.ast p with
      | error e => rw [hu] at hok; cases hok
      | ok ap =>
        rw [hu] at hok
        cases hok
        intro ns hns
        cases hns
    | some ns0 =>
      cases ns0 with
      | nil =>
        rw [lookupFast_empty sa mm sn p hc] at hok
        simp only [] at hok
        rw [lookupFull_some sa mm sn p _ hc] at hok
        cases hok
        exact hInv
      | cons n ns =>
        rw [lookupFast_cons sa mm sn p n ns hc] at hok
        cases hs : scanNodes mm sn (n :: ns) p with
        | error e => rw [hs] at hok; cases hok
        | ok bp =>
          rw [hs] at hok
          obtain ⟨b, p1⟩ := bp
          cases b with
          | true =>
            simp only [] at hok
            rw [lookupFull_some sa mm sn p1 _ hc] at hok
            cases hok
            exact hInv
          | false =>
            simp only [] at hok
            rw [lookupFull_none _ mm sn p1 rfl] at hok
            cases hu : lookupUnit mm sn sa.ast p1 with
            | error e => rw [hu] at hok; cases hok
            | ok ap =>
              rw [hu] at hok
              cases hok
              intro ns2 hns2
              cases hns2
  · intro sa mm sn p n ns p1 hc hs
    rw [lookupClassReferences_eq, lookupFast_cons sa mm sn p n ns hc, hs]
    simp only []
    rw [lookupFull_none _ mm sn p1 rfl]

theorem claim_C2_witness :
    indexConsistent (StoreAst tW4 heap0).1
    ∧ (EnsureAstName (StoreAst tW4 heap0).1 (str "zz") heap0).1.class_type_nodes = none :=
  ⟨claim_C2.1 tW4 heap0,
   claim_C2.2.2.1 (StoreAst tW4 heap0).1 (str "zz") heap0 (by decide)⟩


theorem visit_classType (mm : ModuleMap) (sn : Str) (i : Nat) (nm : Str) (p : Ptrs) :
    visitClassTypeLookup mm sn (.classType i nm) p = visitRef mm sn i nm p := rfl

theorem okExtNode_classType (mm : ModuleMap) (sn : Str) (i : Nat) (nm : Str) :
    okExtNode mm sn (.classType i nm) = okExtRef mm sn nm := rfl

theorem badNode_classType (mm : ModuleMap) (sn : Str) (i : Nat) (nm : Str) :
    badNode mm sn (.classType i nm) = badRef mm sn nm := rfl

theorem extFill_classType (mm : ModuleMap) (sn : Str) (p : Ptrs) (i : Nat) (nm : Str) :
    extFill mm sn p (.classType i nm) = extFillRef mm sn p i nm := rfl

theorem fillNode_classType (lmap : ModuleMap) (p : Ptrs) (i : Nat) (nm : Str) :
    fillNode lmap p (.classType i nm) = fillRef lmap p i nm := rfl

theorem visitRef_self (mm : ModuleMap) (sn : Str) (i : Nat) (nm : Str) (p : Ptrs)
    (hself : moduleOf nm = sn) :
    visitRef mm sn i nm p = .ok (.classType i nm, p) := by
  unfold visitRef
  rw [if_pos hself]

theorem visitRef_ext_class (mm : ModuleMap) (sn : Str) (i : Nat) (nm : Str) (p : Ptrs)
    (u : TypeDeclUnit) (c : ClassDecl)
    (hns : moduleOf nm ≠ sn) (hu : List.lookup (moduleOf nm) mm = some u)
    (hc : findClass u nm = some c) :
    visitRef mm sn i nm p
      = .ok (.classType i nm, if p i = none then setPtr p i (some c) else p) := by
  unfold visitRef
  simp [hns, hu, hc]

theorem visitRef_ext_alias (mm : ModuleMap) (sn : Str) (i : Nat) (nm : Str) (p : Ptrs)
    (u : TypeDeclUnit) (a : AliasD)
    (hns : moduleOf nm ≠ sn) (hu : List.lookup (moduleOf nm) mm = some u)
    (hc : findClass u nm = none) (ha : findAlias u nm = some a) :
    visitRef mm sn i nm p = .ok (a.type, p) := by
  unfold visitRef
  simp [hns, hu, hc, ha]

theorem visitRef_ext_missing (mm : ModuleMap) (sn : Str) (i : Nat) (nm : Str) (p : Ptrs)
    (hns : moduleOf nm ≠ sn) (hu : List.lookup (moduleOf nm) mm = none) :
    visitRef mm sn i nm p = .error (.unrestorableDependency nm) := by
  unfold visitRef
  simp [hns, hu]

theorem visitRef_ext_unfound (mm : ModuleMap) (sn : Str) (i : Nat) (nm : Str) (p : Ptrs)
    (u : TypeDeclUnit)
    (hns : moduleOf nm ≠ sn) (hu : List.lookup (moduleOf nm) mm = some u)
    (hc : findClass u nm = none) (ha : findAlias u nm = none) :
    visitRef mm sn i nm p = .error (.unrestorableDependency nm) := by
  unfold visitRef
  simp [hns, hu, hc, ha]

theorem visit_okExt (mm : ModuleMap) (sn : Str) (n : PType) (p : Ptrs)
    (hok : okExtNode mm sn n = true) :
    visitClassTypeLookup mm sn n p = .ok (n, extFill mm sn p n) := by
  cases n with
  | classType i nm =>
    rw [okExtNode_classType] at hok
    rw [visit_classType, extFill_classType]
    unfold okExtRef at hok
    by_cases hself : moduleOf nm = sn
    · rw [visitRef_self mm sn i nm p hself]
      unfold extFillRef
      rw [if_pos hself]
    · simp only [if_neg hself] at hok
      cases hu : List.lookup (moduleOf nm) mm with
      | none => simp [hu] at hok
      | some u =>
        simp only [hu] at hok
        cases hc : findClass u nm with
        | none => simp [hc] at hok
        | some c =>
          rw [visitRef_ext_class mm sn i nm p u c hself hu hc]
          unfold extFillRef
          simp [hself, hu, hc]
  | namedType nm => rfl
  | anything => rfl

theorem visit_bad (mm : ModuleMap) (sn : Str) (n : PType) (p : Ptrs)
    (hb : badNode mm sn n = true) :
    ∃ i nm, n = .classType i nm
      ∧ visitClassTypeLookup mm sn n p = .error (.unrestorableDependency nm) := by
  cases n with
  | classType i nm =>
    refine ⟨i, nm, rfl, ?_⟩
    rw [badNode_classType] at hb
    rw [visit_classType]
    unfold badRef at hb
    by_cases hself : moduleOf nm = sn
    · rw [if_pos hself] at hb; cases hb
    · simp only [if_neg hself] at hb
      cases hu : List.lookup (moduleOf nm) mm with
      | none => exact visitRef_ext_missing mm sn i nm p hself hu
      | some u =>
        simp only [hu] at hb
        have hca : (findClass u nm).isNone = true ∧ (findAlias u nm).isNone = true := by
          constructor <;> [exact (Bool.and_eq_true _ _ |>.mp hb).1;
            exact (Bool.and_eq_true _ _ |>.mp hb).2]
        exact visitRef_ext_unfound mm sn i nm p u hself hu
          (Option.isNone_iff_eq_none.mp hca.1) (Option.isNone_iff_eq_none.mp hca.2)
  | namedType nm => cases hb
  | anything => cases hb

theorem visit_ok_not_bad (mm : ModuleMap) (sn : Str) (n : PType) (p : Ptrs)
    (r : PType × Ptrs) (h : visitClassTypeLookup mm sn n p = .ok r) :
    badNode mm sn n = false := by
  cases n with
  | classType i nm =>
    rw [badNode_classType]
    rw [visit_classType] at h
    unfold badRef
    by_cases hself : moduleOf nm = sn
    · rw [if_pos hself]
    · simp only [if_neg hself]
      cases hu : List.lookup (moduleOf nm) mm with
      | none => rw [visitRef_ext_missing mm sn i nm p hself hu] at h; cases h
      | some u =>
        simp only [hu]
        cases hc : findClass u nm with
        | some c => simp [hc]
        | none =>
          cases ha : findAlias u nm with
          | some a => simp [hc, ha]
          | none =>
            rw [visitRef_ext_unfound mm sn i nm p u hself hu hc ha] at h
            cases h
  | namedType nm => rfl
  | anything => rfl

theorem visit_error_bad (mm : ModuleMap) (sn : Str) (n : PType) (p : Ptrs)
    (e : LoadError) (h : visitClassTypeLookup mm sn n p = .error e) :
    ∃ i nm, n = .classType i nm ∧ e = .unrestorableDependency nm
      ∧ badNode mm sn n = true := by
  cases n with
  | classType i nm =>
    refine ⟨i, nm, rfl, ?_⟩
    rw [badNode_classType]
    rw [visit_classType] at h
    unfold badRef
    by_cases hself : moduleOf nm = sn
    · rw [visitRef_self mm sn i nm p hself] at h; cases h
    · simp only [if_neg hself]
      cases hu : List.lookup (moduleOf nm) mm with
      | none =>
        rw [visitRef_ext_missing mm sn i nm p hself hu] at h
        cases h
        exact ⟨rfl, rfl⟩
      | some u =>
        simp only [hu]
        cases hc : findClass u nm with
        | some c => rw [visitRef_ext_class mm sn i nm p u c hself hu hc] at h; cases h
        | none =>
          cases ha : findAlias u nm with
          | some a => rw [visitRef_ext_alias mm sn i nm p u a hself hu hc ha] at h; cases h
          | none =>
            rw [visitRef_ext_unfound mm sn i nm p u hself hu hc ha] at h
            cases h
            exact ⟨rfl, by simp [hc, ha]⟩
  | namedType nm => cases h
  | anything => cases h

theorem scan_all_ok (mm : ModuleMap) (sn : Str) :
    ∀ (l : List PType) (p : Ptrs), (∀ n ∈ l, okExtNode mm sn n = true) →
      scanNodes mm sn l p = .ok (true, l.foldl (extFill mm sn) p) := by
  intro l
  induction l with
  | nil => intro p h; rfl
  | cons n rest ih =>
    intro p h
    have hn := h n (List.mem_cons_self n rest)
    have hrest : ∀ m ∈ rest, okExtNode mm sn m = true :=
      fun m hm => h m (List.mem_cons_of_mem n hm)
    unfold scanNodes
    rw [visit_okExt mm sn n p hn]
    simp only [List.foldl_cons]
    show (if True then scanNodes mm sn rest (extFill mm sn p n)
          else .ok (false, extFill mm sn p n))
        = .ok (true, rest.foldl (extFill mm sn) (extFill mm sn p n))
    rw [if_pos trivial]
    exact ih _ hrest

theorem extFill_none_of (mm : ModuleMap) (sn : Str) (p : Ptrs) (n : PType) (j : Nat)
    (h : extFill mm sn p n j = none) : p j = none := by
  cases n with
  | classType i nm =>
    rw [extFill_classType] at h
    unfold extFillRef at h
    by_cases hself : moduleOf nm = sn
    · rwa [if_pos hself] at h
    · simp only [if_neg hself] at h
      cases hu : List.lookup (moduleOf nm) mm with
      | none => simp only [hu] at h; exact h
      | some u =>
        simp only [hu] at h
        cases hc : findClass u nm with
        | none => simp only [hc] at h; exact h
        | some c =>
          simp only [hc] at h
          by_cases hpi : p i = none
          · rw [if_pos hpi] at h
            unfold setPtr at h
            by_cases hji : j = i
            · rw [hji]; exact hpi
            · rwa [if_neg hji] at h
          · rwa [if_neg hpi] at h
  | namedType nm => exact h
  | anything => exact h

theorem foldl_extFill_none_of (mm : ModuleMap) (sn : Str) :
    ∀ (l : List PType) (p : Ptrs) (j : Nat),
      (l.foldl (extFill mm sn) p) j = none → p j = none := by
  intro l
  induction l with
  | nil => intro p j h; exact h
  | cons n rest ih =>
    intro p j h
    rw [List.foldl_cons] at h
    exact extFill_none_of mm sn p n j (ih _ j h)

theorem extFillRef_ext_fills (mm : ModuleMap) (sn : Str) (p : Ptrs) (i : Nat) (nm : Str)
    (hns : moduleOf nm ≠ sn) (hok : okExtRef mm sn nm = true) :
    extFillRef mm sn p i nm i ≠ none := by
  unfold okExtRef at hok
  simp only [if_neg hns] at hok
  unfold extFillRef
  simp only [if_neg hns]
  cases hu : List.lookup (moduleOf nm) mm with
  | none => simp [hu] at hok
  | some u =>
    simp only [hu] at hok
    cases hc : findClass u nm with
    | none => simp [hc] at hok
    | some c =>
      simp only [hc]
      by_cases hpi : p i = none
      · rw [if_pos hpi]
        unfold setPtr
        simp
      · rw [if_neg hpi]
        exact hpi

theorem foldl_extFill_ext_mem (mm : ModuleMap) (sn : Str) :
    ∀ (l : List PType) (p : Ptrs) (i : Nat) (nm : Str),
      PType.classType i nm ∈ l → moduleOf nm ≠ sn → okExtRef mm sn nm = true →
      (l.foldl (extFill mm sn) p) i ≠ none := by
  intro l
  induction l with
  | nil => intro p i nm hmem; cases hmem
  | cons n rest ih =>
    intro p i nm hmem hns hok
    rw [List.foldl_cons]
    rcases List.mem_cons.mp hmem with h1 | h1
    · intro hcon
      have h2 := foldl_extFill_none_of mm sn rest _ i hcon
      rw [← h1, extFill_classType] at h2
      exact extFillRef_ext_fills mm sn p i nm hns hok h2
    · exact ih _ i nm h1 hns hok

theorem fillNode_none_of (lmap : ModuleMap) (p : Ptrs) (n : PType) (j : Nat)
    (h : fillNode lmap p n j = none) : p j = none := by
  cases n with
  | classType i nm =>
    rw [fillNode_classType] at h
    unfold fillRef at h
    cases hl : lookupLocal lmap nm with
    | none => simp only [hl] at h; exact h
    | some c =>
      simp only [hl] at h
      unfold setPtr at h
      by_cases hji : j = i
      · rw [hji] at h; simp at h
      · rwa [if_neg hji] at h
  | namedType nm => exact h
  | anything => exact h

theorem foldl_fillNode_none_of (lmap : ModuleMap) :
    ∀ (l : List PType) (p : Ptrs) (j : Nat),
      (l.foldl (fillNode lmap) p) j = none → p j = none := by
  intro l
  induction l with
  | nil => intro p j h; exact h
  | cons n rest ih =>
    intro p j h
    rw [List.foldl_cons] at h
    exact fillNode_none_of lmap p n j (ih _ j h)

theorem fillRef_fills (lmap : ModuleMap) (p : Ptrs) (i : Nat) (nm : Str) (c : ClassDecl)
    (hl : lookupLocal lmap nm = some c) : fillRef lmap p i nm i = some c := by
  unfold fillRef
  simp only [hl]
  unfold setPtr
  simp

theorem lookupLocal_self (t : TypeDeclUnit) (nm : Str) (hm : moduleOf nm = t.name) :
    lookupLocal [(([] : Str), t), (t.name, t)] nm = findClass t nm := by
  unfold lookupLocal
  rw [hm]
  simp only [List.lookup]
  cases hE : (t.name == ([] : Str)) <;> simp [hE]

theorem mem_findClassTypes (t : TypeDeclUnit) (n : PType) :
    n ∈ findClassTypes t ↔ (n ∈ typesOf t ∧ isClassT n = true) := by
  unfold findClassTypes
  exact List.mem_filter

theorem fillIndexed_ok (lmap : ModuleMap) :
    ∀ (l : List PType) (p : Ptrs),
      (∀ i nm, PType.classType i nm ∈ l → (lookupLocal lmap nm).isSome = true ∨ p i ≠ none) →
      ∃ q, fillIndexed lmap l p = .ok q
        ∧ (∀ j, q j = none → p j = none)
        ∧ (∀ i nm, PType.classType i nm ∈ l → q i ≠ none) := by
  intro l
  induction l with
  | nil =>
    intro p _
    exact ⟨p, rfl, fun _ hj => hj, fun i nm hmem => absurd hmem (List.not_mem_nil _)⟩
  | cons n rest ih =>
    intro p h
    cases n with
    | classType i nm =>
      have hstep : fillNode lmap p (.classType i nm) i ≠ none := by
        rcases h i nm (List.mem_cons_self _ _) with hsome | hne
        · obtain ⟨c, hc⟩ := Option.isSome_iff_exists.mp hsome
          rw [fillNode_classType, fillRef_fills lmap p i nm c hc]
          simp
        · intro hcon
          exact hne (fillNode_none_of lmap p _ i hcon)
      have hrest : ∀ j nm2, PType.classType j nm2 ∈ rest →
          (lookupLocal lmap nm2).isSome = true ∨ fillNode lmap p (.classType i nm) j ≠ none := by
        intro j nm2 hm
        rcases h j nm2 (List.mem_cons_of_mem _ hm) with hsome | hne
        · exact Or.inl hsome
        · exact Or.inr (fun hcon => hne (fillNode_none_of lmap p _ j hcon))
      obtain ⟨q, hq, hmono, hall⟩ := ih (fillNode lmap p (.classType i nm)) hrest
      refine ⟨q, ?_, ?_, ?_⟩
      · show (if fillNode lmap p (.classType i nm) i = none
              then Except.error (.assertionError (.classType i nm))
              else fillIndexed lmap rest (fillNode lmap p (.classType i nm)))
            = .ok q
        rw [if_neg hstep]
        exact hq
      · exact fun j hj => fillNode_none_of lmap p _ j (hmono j hj)
      · intro j nm2 hmem
        rcases List.mem_cons.mp hmem with h1 | h1
        · cases h1
          intro hcon
          exact hstep (hmono i hcon)
        · exact hall j nm2 h1
    | namedType nm =>
      obtain ⟨q, hq, hmono, hall⟩ := ih p
        (fun j nm2 hm => h j nm2 (List.mem_cons_of_mem _ hm))
      refine ⟨q, hq, hmono, ?_⟩
      intro j nm2 hmem
      rcases List.mem_cons.mp hmem with h1 | h1
      · cases h1
      · exact hall j nm2 h1
    | anything =>
      obtain ⟨q, hq, hmono, hall⟩ := ih p
        (fun j nm2 hm => h j nm2 (List.mem_cons_of_mem _ hm))
      refine ⟨q, hq, hmono, ?_⟩
      intro j nm2 hmem
      rcases List.mem_cons.mp hmem with h1 | h1
      · cases h1
      · exact hall j nm2 h1

theorem fillLocalReferences_none (sa : SerializableAst) (lmap : ModuleMap) (p : Ptrs)
    (h : sa.class_type_nodes = none) :
    fillLocalReferences sa lmap p = .ok ((typesOf sa.ast).foldl (fillNode lmap) p) := by
  unfold fillLocalReferences
  rw [h]

theorem fillLocalReferences_empty (sa : SerializableAst) (lmap : ModuleMap) (p : Ptrs)
    (h : sa.class_type_nodes = some []) :
    fillLocalReferences sa lmap p = .ok ((typesOf sa.ast).foldl (fillNode lmap) p) := by
  unfold fillLocalReferences
  rw [h]

theorem fillLocalReferences_cons (sa : SerializableAst) (lmap : ModuleMap) (p : Ptrs)
    (n : PType) (rest : List PType) (h : sa.class_type_nodes = some (n :: rest)) :
    fillLocalReferences sa lmap p = fillIndexed lmap (n :: rest) p := by
  unfold fillLocalReferences
  rw [h]

/-- C1 (amended): for a tree `T` whose stored form has every self-module
reference naming a class declared in it and every external reference
resolving to a class declaration in the module map, resolving the stored
bundle returns exactly the stored tree — equal to `T` itself when `T`'s name
does not end in `.__init__`, and to `T` with the module rename applied when
it does — with every reachable class-reference pointer non-null. -/
theorem claim_C1 (T : TypeDeclUnit) (h : Heap) (mm : ModuleMap)
    (hgood : ∀ n ∈ typesOf (StoreAst T h).1.ast,
        okExtNode mm ((StoreAst T h).1.ast).name n = true
          ∧ selfResolvable (StoreAst T h).1.ast n = true) :
    ∃ pF, ProcessAst (StoreAst T h).1 mm (StoreAst T h).2.ptrs
        = .ok ((StoreAst T h).1.ast, pF)
      ∧ (∀ i nm, PType.classType i nm ∈ typesOf (StoreAst T h).1.ast → pF i ≠ none)
      ∧ (StoreAst T h).1.ast
          = (if initSuffix.isSuffixOf T.name then
              (renameUnit T.name (T.name.take (T.name.length - initSuffix.length)) T h).1
             else T) := by
  have hshape : (StoreAst T h).1.ast
      = (if initSuffix.isSuffixOf T.name then
          (renameUnit T.name (T.name.take (T.name.length - initSuffix.length)) T h).1
         else T) := by
    rw [StoreAst_ast]
    unfold storeRename
    by_cases hsuf : initSuffix.isSuffixOf T.name = true
    · rw [if_pos hsuf, if_pos hsuf]
    · rw [if_neg hsuf, if_neg hsuf]
  set sa := (StoreAst T h).1 with hsadef
  set p0 := (StoreAst T h).2.ptrs with hp0def
  have hidx : sa.class_type_nodes = some (findClassTypes sa.ast) := StoreAst_index T h
  have hokAll : ∀ n ∈ findClassTypes sa.ast, okExtNode mm sa.ast.name n = true :=
    fun n hn => (hgood n ((mem_findClassTypes sa.ast n).mp hn).1).1
  rcases hlist : findClassTypes sa.ast with _ | ⟨n0, ns0⟩
  · -- no class-reference nodes at all
    have hfast : lookupFast sa mm sa.ast.name p0 = .ok (sa, p0) :=
      lookupFast_empty sa mm sa.ast.name p0 (by rw [hidx, hlist])
    have hlcr : lookupClassReferences sa mm sa.ast.name p0 = .ok (sa, p0) := by
      rw [lookupClassReferences_eq, hfast]
      exact lookupFull_some sa mm sa.ast.name p0 _ (by rw [hidx, hlist])
    have hfill : fillLocalReferences sa [(([] : Str), sa.ast), (sa.ast.name, sa.ast)] p0
        = .ok ((typesOf sa.ast).foldl
            (fillNode [(([] : Str), sa.ast), (sa.ast.name, sa.ast)]) p0) :=
      fillLocalReferences_empty sa _ p0 (by rw [hidx, hlist])
    refine ⟨(typesOf sa.ast).foldl
        (fillNode [(([] : Str), sa.ast), (sa.ast.name, sa.ast)]) p0, ?_, ?_, hshape⟩
    · unfold ProcessAst
      rw [hlcr]
      show (match fillLocalReferences sa [(([] : Str), sa.ast), (sa.ast.name, sa.ast)] p0 with
            | Except.error e => Except.error e
            | Except.ok p2 => Except.ok (sa.ast, p2))
          = .ok (sa.ast, (typesOf sa.ast).foldl
              (fillNode [(([] : Str), sa.ast), (sa.ast.name, sa.ast)]) p0)
      rw [hfill]
    · intro i nm hmem
      have : PType.classType i nm ∈ findClassTypes sa.ast :=
        (mem_findClassTypes sa.ast _).mpr ⟨hmem, rfl⟩
      rw [hlist] at this
      cases this
  · -- at least one class-reference node
    have hok0 : ∀ n ∈ n0 :: ns0, okExtNode mm sa.ast.name n = true := by
      rw [← hlist]; exact hokAll
    have hscan := scan_all_ok mm sa.ast.name (n0 :: ns0) p0 hok0
    have hfast : lookupFast sa mm sa.ast.name p0
        = .ok (sa, (n0 :: ns0).foldl (extFill mm sa.ast.name) p0) := by
      rw [lookupFast_cons sa mm sa.ast.name p0 n0 ns0 (by rw [hidx, hlist]), hscan]
    set p1 := (n0 :: ns0).foldl (extFill mm sa.ast.name) p0 with hp1def
    have hlcr : lookupClassReferences sa mm sa.ast.name p0 = .ok (sa, p1) := by
      rw [lookupClassReferences_eq, hfast]
      exact lookupFull_some sa mm sa.ast.name p1 _ (by rw [hidx, hlist])
    have hfillable : ∀ i nm, PType.classType i nm ∈ n0 :: ns0 →
        (lookupLocal [(([] : Str), sa.ast), (sa.ast.name, sa.ast)] nm).isSome = true
          ∨ p1 i ≠ none := by
      intro i nm hmem
      have hmemT : PType.classType i nm ∈ typesOf sa.ast := by
        have : PType.classType i nm ∈ findClassTypes sa.ast := by rw [hlist]; exact hmem
        exact ((mem_findClassTypes sa.ast _).mp this).1
      obtain ⟨hok, hself⟩ := hgood _ hmemT
      rw [okExtNode_classType] at hok
      by_cases hmod : moduleOf nm = sa.ast.name
      · left
        rw [lookupLocal_self sa.ast nm hmod]
        have hsr : selfResRef sa.ast nm = true := hself
        unfold selfResRef at hsr
        rwa [if_pos hmod] at hsr
      · right
        exact foldl_extFill_ext_mem mm sa.ast.name (n0 :: ns0) p0 i nm hmem hmod hok
    obtain ⟨q, hq, hmono, hall⟩ :=
      fillIndexed_ok [(([] : Str), sa.ast), (sa.ast.name, sa.ast)] (n0 :: ns0) p1 hfillable
    have hfill : fillLocalReferences sa [(([] : Str), sa.ast), (sa.ast.name, sa.ast)] p1
        = .ok q := by
      rw [fillLocalReferences_cons sa _ p1 n0 ns0 (by rw [hidx, hlist])]
      exact hq
    refine ⟨q, ?_, ?_, hshape⟩
    · unfold ProcessAst
      rw [hlcr]
      show (match fillLocalReferences sa [(([] : Str), sa.ast), (sa.ast.name, sa.ast)] p1 with
            | Except.error e => Except.error e
            | Except.ok p2 => Except.ok (sa.ast, p2))
          = .ok (sa.ast, q)
      rw [hfill]
    · intro i nm hmem
      have : PType.classType i nm ∈ findClassTypes sa.ast :=
        (mem_findClassTypes sa.ast _).mpr ⟨hmem, rfl⟩
      rw [hlist] at this
      exact hall i nm this

theorem claim_C1_witness :
    ∃ pF, ProcessAst (StoreAst tW1 heap0).1 mmW1 (StoreAst tW1 heap0).2.ptrs
        = .ok ((StoreAst tW1 heap0).1.ast, pF)
      ∧ (∀ i nm, PType.classType i nm ∈ typesOf (StoreAst tW1 heap0).1.ast → pF i ≠ none)
      ∧ (StoreAst tW1 heap0).1.ast
          = (if initSuffix.isSuffixOf tW1.name then
              (renameUnit tW1.name (tW1.name.take (tW1.name.length - initSuffix.length))
                tW1 heap0).1
             else tW1) :=
  claim_C1 tW1 heap0 mmW1 (by decide)

theorem claim_C1_counterexample :
    (StoreAst tX1 heap0).1.dependencies = [str "pkg"]
    ∧ List.lookup (str "pkg") mmX1 = some pkgU
    ∧ processedTree (StoreAst tX1 heap0).1 mmX1 (StoreAst tX1 heap0).2.ptrs
        = .ok (StoreAst tX1 heap0).1.ast
    ∧ ((StoreAst tX1 heap0).1.ast).name = str "pkg"
    ∧ (StoreAst tX1 heap0).1.ast ≠ { tX1 with name := str "pkg" } := by
  decide

theorem lookupTypes_error (mm : ModuleMap) (sn : Str) :
    ∀ (l : List PType) (p : Ptrs) (e : LoadError), lookupTypes mm sn l p = .error e →
      ∃ i nm, e = .unrestorableDependency nm ∧ PType.classType i nm ∈ l
        ∧ badRef mm sn nm = true := by
  intro l
  induction l with
  | nil => intro p e h; cases h
  | cons n rest ih =>
    intro p e h
    unfold lookupTypes at h
    cases hv : visitClassTypeLookup mm sn n p with
    | error e2 =>
      simp only [hv] at h
      cases h
      obtain ⟨i, nm, hn, he, hb⟩ := visit_error_bad mm sn n p e hv
      refine ⟨i, nm, he, ?_, ?_⟩
      · rw [← hn]; exact List.mem_cons_self n rest
      · rw [hn, badNode_classType] at hb; exact hb
    | ok np =>
      simp only [hv] at h
      cases hr : lookupTypes mm sn rest np.2 with
      | error e2 =>
        simp only [hr] at h
        cases h
        obtain ⟨i, nm, he, hm, hb⟩ := ih np.2 e hr
        exact ⟨i, nm, he, List.mem_cons_of_mem n hm, hb⟩
      | ok rp => simp only [hr] at h; cases h

theorem lookupTypes_not_bad (mm : ModuleMap) (sn : Str) :
    ∀ (l : List PType) (p : Ptrs) (r : List PType × Ptrs), lookupTypes mm sn l p = .ok r →
      ∀ n ∈ l, badNode mm sn n = false := by
  intro l
  induction l with
  | nil => intro p r _ n hmem; cases hmem
  | cons n0 rest ih =>
    intro p r h n hmem
    unfold lookupTypes at h
    cases hv : visitClassTypeLookup mm sn n0 p with
    | error e2 => simp only [hv] at h; cases h
    | ok np =>
      simp only [hv] at h
      cases hr : lookupTypes mm sn rest np.2 with
      | error e2 => simp only [hr] at h; cases h
      | ok rp =>
        rcases List.mem_cons.mp hmem with h1 | h1
        · rw [h1]; exact visit_ok_not_bad mm sn n0 p np hv
        · exact ih np.2 rp hr n h1

theorem lookupConstants_error (mm : ModuleMap) (sn : Str) :
    ∀ (l : List ConstantD) (p : Ptrs) (e : LoadError), lookupConstants mm sn l p = .error e →
      ∃ i nm, e = .unrestorableDependency nm
        ∧ PType.classType i nm ∈ l.map (fun c => c.type)
        ∧ badRef mm sn nm = true := by
  intro l
  induction l with
  | nil => intro p e h; cases h
  | cons c rest ih =>
    intro p e h
    unfold lookupConstants at h
    cases hv : visitClassTypeLookup mm sn c.type p with
    | error e2 =>
      simp only [hv] at h
      cases h
      obtain ⟨i, nm, hn, he, hb⟩ := visit_error_bad mm sn c.type p e hv
      refine ⟨i, nm, he, ?_, ?_⟩
      · rw [List.map_cons, ← hn]; exact List.mem_cons_self _ _
      · rw [hn, badNode_classType] at hb; exact hb
    | ok np =>
      simp only [hv] at h
      cases hr : lookupConstants mm sn rest np.2 with
      | error e2 =>
        simp only [hr] at h
        cases h
        obtain ⟨i, nm, he, hm, hb⟩ := ih np.2 e hr
        exact ⟨i, nm, he, by rw [List.map_cons]; exact List.mem_cons_of_mem _ hm, hb⟩
      | ok rp => simp only [hr] at h; cases h

theorem lookupConstants_not_bad (mm : ModuleMap) (sn : Str) :
    ∀ (l : List ConstantD) (p : Ptrs) (r : List ConstantD × Ptrs),
      lookupConstants mm sn l p = .ok r →
      ∀ n ∈ l.map (fun c => c.type), badNode mm sn n = false := by
  intro l
  induction l with
  | nil => intro p r _ n hmem; cases hmem
  | cons c rest ih =>
    intro p r h n hmem
    unfold lookupConstants at h
    cases hv : visitClassTypeLookup mm sn c.type p with
    | error e2 => simp only [hv] at h; cases h
    | ok np =>
      simp only [hv] at h
      cases hr : lookupConstants mm sn rest np.2 with
      | error e2 => simp only [hr] at h; cases h
      | ok rp =>
        rw [List.map_cons] at hmem
        rcases List.mem_cons.mp hmem with h1 | h1
        · rw [h1]; exact visit_ok_not_bad mm sn c.type p np hv
        · exact ih np.2 rp hr n h1

theorem lookupAliases_error (mm : ModuleMap) (sn : Str) :
    ∀ (l : List AliasD) (p : Ptrs) (e : LoadError), lookupAliases mm sn l p = .error e →
      ∃ i nm, e = .unrestorableDependency nm
        ∧ PType.classType i nm ∈ l.map (fun a => a.type)
        ∧ badRef mm sn nm = true := by
  intro l
  induction l with
  | nil => intro p e h; cases h
  | cons a rest ih =>
    intro p e h
    unfold lookupAliases at h
    cases hv : visitClassTypeLookup mm sn a.type p with
    | error e2 =>
      simp only [hv] at h
      cases h
      obtain ⟨i, nm, hn, he, hb⟩ := visit_error_bad mm sn a.type p e hv
      refine ⟨i, nm, he, ?_, ?_⟩
      · rw [List.map_cons, ← hn]; exact List.mem_cons_self _ _
      · rw [hn, badNode_classType] at hb; exact hb
    | ok np =>
      simp only [hv] at h
      cases hr : lookupAliases mm sn rest np.2 with
      | error e2 =>
        simp only [hr] at h
        cases h
        obtain ⟨i, nm, he, hm, hb⟩ := ih np.2 e hr
        exact ⟨i, nm, he, by rw [List.map_cons]; exact List.mem_cons_of_mem _ hm, hb⟩
      | ok rp => simp only [hr] at h; cases h

theorem lookupAliases_not_bad (mm : ModuleMap) (sn : Str) :
    ∀ (l : List AliasD) (p : Ptrs) (r : List AliasD × Ptrs),
      lookupAliases mm sn l p = .ok r →
      ∀ n ∈ l.map (fun a => a.type), badNode mm sn n = false := by
  intro l
  induction l with
  | nil => intro p r _ n hmem; cases hmem
  | cons a rest ih =>
    intro p r h n hmem
    unfold lookupAliases at h
    cases hv : visitClassTypeLookup mm sn a.type p with
    | error e2 => simp only [hv] at h; cases h
    | ok np =>
      simp only [hv] at h
      cases hr : lookupAliases mm sn rest np.2 with
      | error e2 => simp only [hr] at h; cases h
      | ok rp =>
        rw [List.map_cons] at hmem
        rcases List.mem_cons.mp hmem with h1 | h1
        · rw [h1]; exact visit_ok_not_bad mm sn a.type p np hv
        · exact ih np.2 rp hr n h1

theorem lookupFunctions_error (mm : ModuleMap) (sn : Str) :
    ∀ (l : List FunctionD) (p : Ptrs) (e : LoadError), lookupFunctions mm sn l p = .error e →
      ∃ i nm, e = .unrestorableDependency nm
        ∧ PType.classType i nm ∈ l.flatMap (fun f => f.paramTypes ++ [f.returnType])
        ∧ badRef mm sn nm = true := by
  intro l
  induction l with
  | nil => intro p e h; cases h
  | cons f rest ih =>
    intro p e h
    unfold lookupFunctions at h
    cases ht : lookupTypes mm sn f.paramTypes p with
    | error e2 =>
      simp only [ht] at h
      cases h
      obtain ⟨i, nm, he, hm, hb⟩ := lookupTypes_error mm sn f.paramTypes p e ht
      refine ⟨i, nm, he, ?_, hb⟩
      rw [List.flatMap_cons]
      exact List.mem_append_left _ (List.mem_append_left _ hm)
    | ok pp =>
      simp only [ht] at h
      cases hv : visitClassTypeLookup mm sn f.returnType pp.2 with
      | error e2 =>
        simp only [hv] at h
        cases h
        obtain ⟨i, nm, hn, he, hb⟩ := visit_error_bad mm sn f.returnType pp.2 e hv
        refine ⟨i, nm, he, ?_, by rw [hn, badNode_classType] at hb; exact hb⟩
        rw [List.flatMap_cons]
        apply List.mem_append_left
        apply List.mem_append_right
        rw [← hn]
        exact List.mem_singleton.mpr rfl
      | ok np =>
        simp only [hv] at h
        cases hr : lookupFunctions mm sn rest np.2 with
        | error e2 =>
          simp only [hr] at h
          cases h
          obtain ⟨i, nm, he, hm, hb⟩ := ih np.2 e hr
          exact ⟨i, nm, he, by rw [List.flatMap_cons]; exact List.mem_append_right _ hm, hb⟩
        | ok rp => simp only [hr] at h; cases h

theorem lookupFunctions_not_bad (mm : ModuleMap) (sn : Str) :
    ∀ (l : List FunctionD) (p : Ptrs) (r : List FunctionD × Ptrs),
      lookupFunctions mm sn l p = .ok r →
      ∀ n ∈ l.flatMap (fun f => f.paramTypes ++ [f.returnType]), badNode mm sn n = false := by
  intro l
  induction l with
  | nil => intro p r _ n hmem; cases hmem
  | cons f rest ih =>
    intro p r h n hmem
    unfold lookupFunctions at h
    cases ht : lookupTypes mm sn f.paramTypes p with
    | error e2 => simp only [ht] at h; cases h
    | ok pp =>
      simp only [ht] at h
      cases hv : visitClassTypeLookup mm sn f.returnType pp.2 with
      | error e2 => simp only [hv] at h; cases h
      | ok np =>
        simp only [hv] at h
        cases hr : lookupFunctions mm sn rest np.2 with
        | error e2 => simp only [hr] at h; cases h
        | ok rp =>
          rw [List.flatMap_cons] at hmem
          rcases List.mem_append.mp hmem with h1 | h1
          · rcases List.mem_append.mp h1 with h2 | h2
            · exact lookupTypes_not_bad mm sn f.paramTypes p pp ht n h2
            · rw [List.mem_singleton.mp h2]
              exact visit_ok_not_bad mm sn f.returnType pp.2 np hv
          · exact ih np.2 rp hr n h1

theorem lookupClasses_error (mm : ModuleMap) (sn : Str) :
    ∀ (l : List ClassDecl) (p : Ptrs) (e : LoadError), lookupClasses mm sn l p = .error e →
      ∃ i nm, e = .unrestorableDependency nm
        ∧ PType.classType i nm
            ∈ l.flatMap (fun c => c.parents ++ c.constants.map (fun k => k.type))
        ∧ badRef mm sn nm = true := by
  intro l
  induction l with
  | nil => intro p e h; cases h
  | cons c rest ih =>
    intro p e h
    unfold lookupClasses at h
    cases ht : lookupTypes mm sn c.parents p with
    | error e2 =>
      simp only [ht] at h
      cases h
      obtain ⟨i, nm, he, hm, hb⟩ := lookupTypes_error mm sn c.parents p e ht
      refine ⟨i, nm, he, ?_, hb⟩
      rw [List.flatMap_cons]
      exact List.mem_append_left _ (List.mem_append_left _ hm)
    | ok pp =>
      simp only [ht] at h
      cases hc : lookupConstants mm sn c.constants pp.2 with
      | error e2 =>
        simp only [hc] at h
        cases h
        obtain ⟨i, nm, he, hm, hb⟩ := lookupConstants_error mm sn c.constants pp.2 e hc
        refine ⟨i, nm, he, ?_, hb⟩
        rw [List.flatMap_cons]
        exact List.mem_append_left _ (List.mem_append_right _ hm)
      | ok cp =>
        simp only [hc] at h
        cases hr : lookupClasses mm sn rest cp.2 with
        | error e2 =>
          simp only [hr] at h
          cases h
          obtain ⟨i, nm, he, hm, hb⟩ := ih cp.2 e hr
          exact ⟨i, nm, he, by rw [List.flatMap_cons]; exact List.mem_append_right _ hm, hb⟩
        | ok rp => simp only [hr] at h; cases h

theorem lookupClasses_not_bad (mm : ModuleMap) (sn : Str) :
    ∀ (l : List ClassDecl) (p : Ptrs) (r : List ClassDecl × Ptrs),
      lookupClasses mm sn l p = .ok r →
      ∀ n ∈ l.flatMap (fun c => c.parents ++ c.constants.map (fun k => k.type)),
        badNode mm sn n = false := by
  intro l
  induction l with
  | nil => intro p r _ n hmem; cases hmem
  | cons c rest ih =>
    intro p r h n hmem
    unfold lookupClasses at h
    cases ht : lookupTypes mm sn c.parents p with
    | error e2 => simp only [ht] at h; cases h
    | ok pp =>
      simp only [ht] at h
      cases hc : lookupConstants mm sn c.constants pp.2 with
      | error e2 => simp only [hc] at h; cases h
      | ok cp =>
        simp only [hc] at h
        cases hr : lookupClasses mm sn rest cp.2 with
        | error e2 => simp only [hr] at h; cases h
        | ok rp =>
          rw [List.flatMap_cons] at hmem
          rcases List.mem_append.mp hmem with h1 | h1
          · rcases List.mem_append.mp h1 with h2 | h2
            · exact lookupTypes_not_bad mm sn c.parents p pp ht n h2
            · exact lookupConstants_not_bad mm sn c.constants pp.2 cp hc n h2
          · exact ih cp.2 rp hr n h1

theorem lookupUnit_error (mm : ModuleMap) (sn : Str) (t : TypeDeclUnit) (p : Ptrs)
    (e : LoadError) (h : lookupUnit mm sn t p = .error e) :
    ∃ i nm, e = .unrestorableDependency nm ∧ PType.classType i nm ∈ typesOf t
      ∧ badRef mm sn nm = true := by
  unfold lookupUnit at h
  unfold typesOf
  cases hcs : lookupConstants mm sn t.constants p with
  | error e2 =>
    simp only [hcs] at h
    cases h
    obtain ⟨i, nm, he, hm, hb⟩ := lookupConstants_error mm sn t.constants p e hcs
    exact ⟨i, nm, he,
      List.mem_append_left _ (List.mem_append_left _ (List.mem_append_left _ hm)), hb⟩
  | ok cs =>
    simp only [hcs] at h
    cases hcl : lookupClasses mm sn t.classes cs.2 with
    | error e2 =>
      simp only [hcl] at h
      cases h
      obtain ⟨i, nm, he, hm, hb⟩ := lookupClasses_error mm sn t.classes cs.2 e hcl
      exact ⟨i, nm, he,
        List.mem_append_left _ (List.mem_append_left _ (List.mem_append_right _ hm)), hb⟩
    | ok cls =>
      simp only [hcl] at h
      cases hf : lookupFunctions mm sn t.functions cls.2 with
      | error e2 =>
        simp only [hf] at h
        cases h
        obtain ⟨i, nm, he, hm, hb⟩ := lookupFunctions_error mm sn t.functions cls.2 e hf
        exact ⟨i, nm, he,
          List.mem_append_left _ (List.mem_append_right _ hm), hb⟩
      | ok fns =>
        simp only [hf] at h
        cases ha : lookupAliases mm sn t.aliases fns.2 with
        | error e2 =>
          simp only [ha] at h
          cases h
          obtain ⟨i, nm, he, hm, hb⟩ := lookupAliases_error mm sn t.aliases fns.2 e ha
          exact ⟨i, nm, he, List.mem_append_right _ hm, hb⟩
        | ok als => simp only [ha] at h; cases h

theorem lookupUnit_not_bad (mm : ModuleMap) (sn : Str) (t : TypeDeclUnit) (p : Ptrs)
    (r : TypeDeclUnit × Ptrs) (h : lookupUnit mm sn t p = .ok r) :
    ∀ n ∈ typesOf t, badNode mm sn n = false := by
  unfold lookupUnit at h
  intro n hmem
  unfold typesOf at hmem
  cases hcs : lookupConstants mm sn t.constants p with
  | error e2 => simp only [hcs] at h; cases h
  | ok cs =>
    simp only [hcs] at h
    cases hcl : lookupClasses mm sn t.classes cs.2 with
    | error e2 => simp only [hcl] at h; cases h
    | ok cls =>
      simp only [hcl] at h
      cases hf : lookupFunctions mm sn t.functions cls.2 with
      | error e2 => simp only [hf] at h; cases h
      | ok fns =>
        simp only [hf] at h
        cases ha : lookupAliases mm sn t.aliases fns.2 with
        | error e2 => simp only [ha] at h; cases h
        | ok als =>
          rcases List.mem_append.mp hmem with h1 | h1
          · rcases List.mem_append.mp h1 with h2 | h2
            · rcases List.mem_append.mp h2 with h3 | h3
              · exact lookupConstants_not_bad mm sn t.constants p cs hcs n h3
              · exact lookupClasses_not_bad mm sn t.classes cs.2 cls hcl n h3
            · exact lookupFunctions_not_bad mm sn t.functions cls.2 fns hf n h2
          · exact lookupAliases_not_bad mm sn t.aliases fns.2 als ha n h1

theorem scan_error (mm : ModuleMap) (sn : Str) :
    ∀ (l : List PType) (p : Ptrs) (e : LoadError), scanNodes mm sn l p = .error e →
      ∃ i nm, e = .unrestorableDependency nm ∧ PType.classType i nm ∈ l
        ∧ badRef mm sn nm = true := by
  intro l
  induction l with
  | nil => intro p e h; cases h
  | cons n rest ih =>
    intro p e h
    unfold scanNodes at h
    cases hv : visitClassTypeLookup mm sn n p with
    | error e2 =>
      simp only [hv] at h
      cases h
      obtain ⟨i, nm, hn, he, hb⟩ := visit_error_bad mm sn n p e hv
      refine ⟨i, nm, he, ?_, ?_⟩
      · rw [← hn]; exact List.mem_cons_self n rest
      · rw [hn, badNode_classType] at hb; exact hb
    | ok np =>
      simp only [hv] at h
      by_cases heq : np.1 = n
      · rw [if_pos heq] at h
        obtain ⟨i, nm, he, hm, hb⟩ := ih np.2 e h
        exact ⟨i, nm, he, List.mem_cons_of_mem n hm, hb⟩
      · rw [if_neg heq] at h
        cases h

theorem scan_true_not_bad (mm : ModuleMap) (sn : Str) :
    ∀ (l : List PType) (p p1 : Ptrs), scanNodes mm sn l p = .ok (true, p1) →
      ∀ n ∈ l, badNode mm sn n = false := by
  intro l
  induction l with
  | nil => intro p p1 _ n hmem; cases hmem
  | cons n0 rest ih =>
    intro p p1 h n hmem
    unfold scanNodes at h
    cases hv : visitClassTypeLookup mm sn n0 p with
    | error e2 => simp only [hv] at h; cases h
    | ok np =>
      simp only [hv] at h
      by_cases heq : np.1 = n0
      · rw [if_pos heq] at h
        rcases List.mem_cons.mp hmem with h1 | h1
        · rw [h1]; exact visit_ok_not_bad mm sn n0 p np hv
        · exact ih np.2 p1 h n h1
      · rw [if_neg heq] at h
        cases h

theorem lookupFull_none_error (sa : SerializableAst) (mm : ModuleMap) (sn : Str) (p : Ptrs)
    (e : LoadError) (hn : sa.class_type_nodes = none)
    (hu : lookupUnit mm sn sa.ast p = .error e) : lookupFull sa mm sn p = .error e := by
  rw [lookupFull_none sa mm sn p hn, hu]

theorem ProcessAst_error_of (sa : SerializableAst) (mm : ModuleMap) (p : Ptrs) (e : LoadError)
    (h : lookupClassReferences sa mm sa.ast.name p = .error e) :
    ProcessAst sa mm p = .error e := by
  unfold ProcessAst
  rw [h]

/-- C3: during external resolution, a class reference naming a module or
class absent from the module map (and not excluded as a self reference) makes
the whole load fail with `UnrestorableDependencyError` carrying an
unresolvable reference name reachable in the tree; `ProcessAst` returns no
tree in that case.  The bundle is assumed to carry either no index or a
sound one (as every bundle produced by `StoreAst` or `EnsureAstName` does). -/
theorem claim_C3 (sa : SerializableAst) (mm : ModuleMap) (p : Ptrs)
    (hidx : sa.class_type_nodes = none ∨ indexConsistent sa)
    (hbad : ∃ i nm, PType.classType i nm ∈ typesOf sa.ast
        ∧ badRef mm sa.ast.name nm = true) :
    ∃ nm2, ProcessAst sa mm p = .error (.unrestorableDependency nm2)
      ∧ ∃ i2, PType.classType i2 nm2 ∈ typesOf sa.ast
        ∧ badRef mm sa.ast.name nm2 = true := by
  obtain ⟨i, nm, hmem, hb⟩ := hbad
  have hslow : ∀ p2 : Ptrs, ∃ nm2,
      lookupUnit mm sa.ast.name sa.ast p2 = .error (.unrestorableDependency nm2)
        ∧ ∃ i2, PType.classType i2 nm2 ∈ typesOf sa.ast
          ∧ badRef mm sa.ast.name nm2 = true := by
    intro p2
    cases hu : lookupUnit mm sa.ast.name sa.ast p2 with
    | ok r =>
      have := lookupUnit_not_bad mm sa.ast.name sa.ast p2 r hu _ hmem
      rw [badNode_classType, hb] at this
      cases this
    | error e =>
      obtain ⟨i2, nm2, he, hm2, hb2⟩ := lookupUnit_error mm sa.ast.name sa.ast p2 e hu
      exact ⟨nm2, by rw [he], i2, hm2, hb2⟩
  have hfromNone : sa.class_type_nodes = none →
      ∃ nm2, ProcessAst sa mm p = .error (.unrestorableDependency nm2)
        ∧ ∃ i2, PType.classType i2 nm2 ∈ typesOf sa.ast
          ∧ badRef mm sa.ast.name nm2 = true := by
    intro hnone
    obtain ⟨nm2, hu, hw⟩ := hslow p
    refine ⟨nm2, ProcessAst_error_of sa mm p _ ?_, hw⟩
    rw [lookupClassReferences_eq, lookupFast_none sa mm sa.ast.name p hnone]
    show lookupFull sa mm sa.ast.name p = .error (.unrestorableDependency nm2)
    rw [lookupFull_none sa mm sa.ast.name p hnone, hu]
  rcases hidx with hnone | hcons
  · exact hfromNone hnone
  · cases hc : sa.class_type_nodes with
    | none => exact hfromNone hc
    | some ns0 =>
      have hns : ns0 = findClassTypes sa.ast := hcons ns0 hc
      have hmemIdx : PType.classType i nm ∈ ns0 := by
        rw [hns]
        exact (mem_findClassTypes sa.ast _).mpr ⟨hmem, rfl⟩
      cases hlist : ns0 with
      | nil => rw [hlist] at hmemIdx; cases hmemIdx
      | cons n0 rest =>
        rw [hlist] at hmemIdx
        cases hs : scanNodes mm sa.ast.name (n0 :: rest) p with
        | error e =>
          obtain ⟨i2, nm2, he, hm2, hb2⟩ :=
            scan_error mm sa.ast.name (n0 :: rest) p e hs
          have hm2T : PType.classType i2 nm2 ∈ typesOf sa.ast := by
            have : PType.classType i2 nm2 ∈ findClassTypes sa.ast := by
              rw [← hns, hlist]; exact hm2
            exact ((mem_findClassTypes sa.ast _).mp this).1
          refine ⟨nm2, ProcessAst_error_of sa mm p _ ?_, i2, hm2T, hb2⟩
          rw [lookupClassReferences_eq,
            lookupFast_cons sa mm sa.ast.name p n0 rest (by rw [hc, hlist]), hs]
          rw [he]
        | ok bp =>
          obtain ⟨b, p1⟩ := bp
          cases b with
          | true =>
            have := scan_true_not_bad mm sa.ast.name (n0 :: rest) p p1 hs _ hmemIdx
            rw [badNode_classType, hb] at this
            cases this
          | false =>
            obtain ⟨nm2, hu, hw⟩ := hslow p1
            refine ⟨nm2, ProcessAst_error_of sa mm p _ ?_, hw⟩
            rw [lookupClassReferences_eq,
              lookupFast_cons sa mm sa.ast.name p n0 rest (by rw [hc, hlist]), hs]
            show lookupFull
                { ast := sa.ast, dependencies := sa.dependencies, class_type_nodes := none }
                mm sa.ast.name p1 = .error (.unrestorableDependency nm2)
            exact lookupFull_none_error _ mm sa.ast.name p1 _ rfl hu

theorem claim_C3_witness :
    ∃ nm2, ProcessAst saW3 [] pnone = .error (.unrestorableDependency nm2)
      ∧ ∃ i2, PType.classType i2 nm2 ∈ typesOf saW3.ast
        ∧ badRef [] saW3.ast.name nm2 = true :=
  claim_C3 saW3 [] pnone (Or.inl rfl) ⟨0, str "pkg.Missing", by decide, by decide⟩

/-- C5: resolver ordering — for the tree `tW5`, whose class `A` is
structurally replaced during external resolution (its external reference
resolves to an alias), the self reference to `A` ends up pointing at the new,
post-restructure `A` node, not at the one that existed before external
resolution: local pointer filling observes the tree as it stands after all
external restructuring. -/
theorem claim_C5 :
    oldA5 ∈ tW5.classes
    ∧ newA5 ≠ oldA5
    ∧ (ProcessAst (StoreAst tW5 heap0).1 mmW5 (StoreAst tW5 heap0).2.ptrs).map
        (fun r => r.1.classes) = .ok [newA5]
    ∧ (ProcessAst (StoreAst tW5 heap0).1 mmW5 (StoreAst tW5 heap0).2.ptrs).map
        (fun r => r.2 6) = .ok (some newA5) := by
  decide

/-- C6: the docstring of `ProcessAst` promises an `AssertionError` when the
module being loaded is already present in the module map, but the function
performs no such check: with `m1` (the name of the bundle's tree) present in
the map, the load completes and returns the resolved tree. -/
theorem claim_C6 :
    List.lookup ((StoreAst tW4 heap0).1.ast).name mmW6 = some pkgU
    ∧ processedTree (StoreAst tW4 heap0).1 mmW6 (StoreAst tW4 heap0).2.ptrs
        = .ok (StoreAst tW4 heap0).1.ast := by
  decide

theorem claim_C7_counterexample :
    saW7.class_type_nodes = some []
    ∧ PType.classType 0 (str "m1.A") ∈ typesOf saW7.ast
    ∧ (fillLocalReferences saW7 lmapW7 pnone).map (fun q => q 0)
        = .ok (some { name := str "m1.A", parents := [], constants := [] }) := by
  decide

theorem claim_C9_counterexample :
    (StoreAst tW9 heap0).1.dependencies = []
    ∧ tW9.constants ≠ []
    ∧ str "foo" ∉ (StoreAst tW9 heap0).1.dependencies := by
  decide

theorem fillIndexed_assert (lmap : ModuleMap) :
    ∀ (l : List PType) (p : Ptrs),
      (∀ j nm2, PType.classType j nm2 ∈ l → lookupLocal lmap nm2 = none) →
      (∃ i nm, PType.classType i nm ∈ l ∧ p i = none) →
      ∃ n2, fillIndexed lmap l p = .error (.assertionError n2) := by
  intro l
  induction l with
  | nil =>
    intro p _ hex
    obtain ⟨i, nm, hmem, _⟩ := hex
    cases hmem
  | cons n rest ih =>
    intro p hall hex
    obtain ⟨i, nm, hmem, hpi⟩ := hex
    cases n with
    | classType j nm2 =>
      have hl2 : lookupLocal lmap nm2 = none := hall j nm2 (List.mem_cons_self _ _)
      have hfn : fillNode lmap p (.classType j nm2) = p := by
        rw [fillNode_classType]
        unfold fillRef
        rw [hl2]
      by_cases hpj : p j = none
      · refine ⟨.classType j nm2, ?_⟩
        show (if fillNode lmap p (.classType j nm2) j = none
              then Except.error (.assertionError (.classType j nm2))
              else fillIndexed lmap rest (fillNode lmap p (.classType j nm2)))
            = .error (.assertionError (.classType j nm2))
        rw [hfn, if_pos hpj]
      · have hmem2 : PType.classType i nm ∈ rest := by
          rcases List.mem_cons.mp hmem with h1 | h1
          · exfalso
            injection h1 with hij hnmeq
            rw [hij] at hpi
            exact hpj hpi
          · exact h1
        obtain ⟨n2, hn2⟩ := ih p (fun a b hm => hall a b (List.mem_cons_of_mem _ hm))
          ⟨i, nm, hmem2, hpi⟩
        refine ⟨n2, ?_⟩
        show (if fillNode lmap p (.classType j nm2) j = none
              then Except.error (.assertionError (.classType j nm2))
              else fillIndexed lmap rest (fillNode lmap p (.classType j nm2)))
            = .error (.assertionError n2)
        rw [hfn, if_neg hpj]
        exact hn2
    | namedType nm2 =>
      have hmem2 : PType.classType i nm ∈ rest := by
        rcases List.mem_cons.mp hmem with h1 | h1
        · cases h1
        · exact h1
      obtain ⟨n2, hn2⟩ := ih p (fun a b hm => hall a b (List.mem_cons_of_mem _ hm))
        ⟨i, nm, hmem2, hpi⟩
      exact ⟨n2, hn2⟩
    | anything =>
      have hmem2 : PType.classType i nm ∈ rest := by
        rcases List.mem_cons.mp hmem with h1 | h1
        · cases h1
        · exact h1
      obtain ⟨n2, hn2⟩ := ih p (fun a b hm => hall a b (List.mem_cons_of_mem _ hm))
        ⟨i, nm, hmem2, hpi⟩
      exact ⟨n2, hn2⟩

/-- C7 (amended): with a present and NON-EMPTY node index,
`_FillLocalReferences` iterates exactly the indexed nodes — filling each
pointer in place, succeeding with every indexed pointer non-null when each
indexed node is locally resolvable or already filled, and raising the fatal
`AssertionError` when an indexed node's pointer is still null after its fill;
with an absent — or present but empty — index it performs a full traversal
instead.  (The source tests the index for truthiness, so an empty index takes
the full-traversal path, not the indexed path.) -/
theorem claim_C7 :
    (∀ sa lmap p n rest, sa.class_type_nodes = some (n :: rest) →
        fillLocalReferences sa lmap p = fillIndexed lmap (n :: rest) p)
    ∧ (∀ sa lmap p, sa.class_type_nodes = none ∨ sa.class_type_nodes = some [] →
        fillLocalReferences sa lmap p = .ok ((typesOf sa.ast).foldl (fillNode lmap) p))
    ∧ (∀ lmap l p,
        (∀ i nm, PType.classType i nm ∈ l →
          (lookupLocal lmap nm).isSome = true ∨ p i ≠ none) →
        ∃ q, fillIndexed lmap l p = .ok q
          ∧ (∀ i nm, PType.classType i nm ∈ l → q i ≠ none))
    ∧ (∀ lmap l p,
        (∀ j nm2, PType.classType j nm2 ∈ l → lookupLocal lmap nm2 = none) →
        (∃ i nm, PType.classType i nm ∈ l ∧ p i = none) →
        ∃ n2, fillIndexed lmap l p = .error (.assertionError n2)) := by
  refine ⟨?_, ?_, ?_, ?_⟩
  · exact fun sa lmap p n rest h => fillLocalReferences_cons sa lmap p n rest h
  · intro sa lmap p h
    rcases h with h | h
    · exact fillLocalReferences_none sa lmap p h
    · exact fillLocalReferences_empty sa lmap p h
  · intro lmap l p h
    obtain ⟨q, hq, _, hall⟩ := fillIndexed_ok lmap l p h
    exact ⟨q, hq, hall⟩
  · exact fun lmap l p => fillIndexed_assert lmap l p

theorem claim_C7_witness :
    fillLocalReferences (StoreAst tW4 heap0).1 lmapW7 pnone
      = fillIndexed lmapW7 [PType.classType 0 (str "m1.A")] pnone :=
  claim_C7.1 (StoreAst tW4 heap0).1 lmapW7 pnone
    (PType.classType 0 (str "m1.A")) [] (by decide)

/-- C9 (amended): the dependency list of a stored bundle is sorted and free
of duplicates, and it contains exactly the module portions of the reachable
class-reference names of the stored tree; in particular it contains the
tree's own module name whenever the stored tree contains a class reference
into its own module — but not merely because the tree has declarations. -/
theorem claim_C9 (ast : TypeDeclUnit) (h : Heap) :
    List.Sorted (· ≤ ·) (StoreAst ast h).1.dependencies
    ∧ (StoreAst ast h).1.dependencies.Nodup
    ∧ (∀ m, m ∈ (StoreAst ast h).1.dependencies
        ↔ m ∈ collectDependencies (StoreAst ast h).1.ast)
    ∧ (∀ i nm, PType.classType i nm ∈ typesOf (StoreAst ast h).1.ast →
        moduleOf nm = ((StoreAst ast h).1.ast).name → moduleOf nm ≠ [] →
        ((StoreAst ast h).1.ast).name ∈ (StoreAst ast h).1.dependencies) := by
  have hdeps : (StoreAst ast h).1.dependencies
      = ((collectDependencies (storeRename ast h).1).dedup).insertionSort (· ≤ ·) :=
    StoreAst_deps ast h
  have hmemiff : ∀ m, m ∈ (StoreAst ast h).1.dependencies
      ↔ m ∈ collectDependencies (StoreAst ast h).1.ast := by
    intro m
    rw [hdeps]
    exact Iff.trans (List.perm_insertionSort _ _).mem_iff (List.mem_dedup)
  refine ⟨?_, ?_, hmemiff, ?_⟩
  · rw [hdeps]
    exact List.sorted_insertionSort _ _
  · rw [hdeps]
    exact (List.perm_insertionSort _ _).nodup_iff.mpr (List.nodup_dedup _)
  · intro i nm hmem hmod hne
    apply (hmemiff _).mpr
    apply List.mem_filterMap.mpr
    refine ⟨PType.classType i nm, hmem, ?_⟩
    show (if moduleOf nm = [] then none else some (moduleOf nm))
        = some ((StoreAst ast h).1.ast).name
    rw [if_neg hne, hmod]

theorem claim_C9_witness :
    (StoreAst tW1 heap0).1.dependencies.Nodup
    ∧ ((StoreAst tW1 heap0).1.ast).name ∈ (StoreAst tW1 heap0).1.dependencies :=
  have h := claim_C9 tW1 heap0
  ⟨h.2.1, h.2.2.2 0 (str "m.A") (by decide) (by decide) (by decide)⟩
